import Mathlib

/-!
# profile_util : the hierarchical communicator benchmark (gpu-mpi-comm.cpp)

A shallow embedding of `examples/gpu-mpi/gpu-mpi-comm.cpp` and of the class
`profiling_util::Timer` of `include/profile_util.h`:

* `MPIAllocateComms` : the construction of the communicator hierarchy,
* `TimeStats`        : the reduction of timing samples,
* `MPISetSize`       : the four message sizes derived from the byte budget,
* `sendTag`, `recvTag` : the message tags of the exchange workload,
* `MPITestCPUCorrectSendRecv` : the correctness check of the root,
* `Timer`            : the host clock and the device events of a timer,
* `MPIFreeComms`, `MPIRunTests` : the release of the communicators,
* `pu_gpuErrorCheck` : the check of the value returned by a device call,
* `isends`, `irecvs` : the requests of the exchange workload,
* `MPITestCPUSendRecv_times` : the samples passed to `TimeStats`,
* `memory_amount`, `ns_time`, `memory_usage.addAssign` : printing and adding amounts.

Conventions of the embedding.

* C++ `int` / `unsigned long long` values are natural numbers where the value cannot
  leave the type (ranks, counts and sizes bounded by the process count, a positive
  `int`). Where it can, the type is explicit: the tag of a message, a product of two
  such values, is also given as the 32-bit `int` it is stored in (`sendTagInt`), and
  the conversion of a `double` to `unsigned long long` in `MPISetSize` is `none`
  outside the range of the type.
* A `std::vector` is a `List`; a write `v[i] = x` is `vecSet v i x`, which is
  `none` when `i` is out of bounds (undefined behaviour in the source).
* The MPI library is modelled by what its standard says about the three calls the
  code makes on a communicator: `MPI_Comm_split`, `MPI_Comm_rank`, `MPI_Comm_size`
  and `MPI_Bcast` from local rank 0.
* The `float` / `double` quantities of `TimeStats` are elements of a linearly ordered
  field, with the square root a parameter: the rounding of the `float` products and of
  the `double` sums of the source is not modelled, so `TimeStats` is used only for
  whether the call is defined (the read of `times[0]`), never for the numbers returned.
* `MPI_Abort` ends the run: a function that calls it returns `Except.error`.
* The device runtime is a state (`GpuState`) that logs the calls made; a call wrapped in
  `pu_gpuErrorCheck` that fails ends the process, which is the result `none`.
* Host time points are integers (nanoseconds); `clock::now()` is an argument.
-/

namespace ProfileUtil

/-! ## Vectors -/

/-- Write `v[i] = x` on a `std::vector`: defined only for `i < v.size()`. -/
def vecSet {α : Type} (v : List α) (i : Nat) (x : α) : Option (List α) :=
  if i < v.length then some (v.set i x) else none

/-- Call `v.resize(n)` on a `std::vector`: truncates, or pads with the default value. -/
def vecResize {α : Type} (dflt : α) (v : List α) (n : Nat) : List α :=
  v.take n ++ List.replicate (n - v.length) dflt

/-! ## The MPI calls used by the hierarchy construction -/

/-- Communicator handles. `SPLIT members` is a communicator created by
`MPI_Comm_split`, identified by the world ranks of its members listed in the order
of their rank in the new communicator. -/
inductive MPI_Comm where
  | COMM_NULL : MPI_Comm
  | COMM_WORLD : MPI_Comm
  | SPLIT (members : List Nat) : MPI_Comm
  deriving DecidableEq, Repr

/-- World ranks of the members of a communicator, in the order of their local rank. -/
def commMembers (NProcs : Nat) : MPI_Comm → List Nat
  | .COMM_NULL => []
  | .COMM_WORLD => List.range NProcs
  | .SPLIT members => members

/-- The communicator that `MPI_Comm_split(MPI_COMM_WORLD, color, key = world rank)`
gives to a process that passes `color`, when the process of world rank `r` passes
the colour `colorOf r`: the processes of equal colour, ordered by key. -/
def MPI_Comm_split (NProcs : Nat) (colorOf : Nat → Nat) (color : Nat) : MPI_Comm :=
  .SPLIT ((List.range NProcs).filter (fun r => colorOf r = color))

/-- Result of `MPI_Comm_size`. -/
def MPI_Comm_size (NProcs : Nat) (c : MPI_Comm) : Nat :=
  (commMembers NProcs c).length

/-- Result of `MPI_Comm_rank` for the process of world rank `ThisTask`. -/
def MPI_Comm_rank (NProcs ThisTask : Nat) (c : MPI_Comm) : Nat :=
  (commMembers NProcs c).indexOf ThisTask

/-- Value held after `MPI_Bcast(&tasktag, 1, MPI_INTEGER, 0, c)` when every member
put its world rank in `tasktag`: the world rank of the member of local rank 0. -/
def MPI_Bcast_root0 (NProcs : Nat) (c : MPI_Comm) : Nat :=
  (commMembers NProcs c).headD 0

/-! ## MPIAllocateComms -/

/-- The value of `std::floor(log(static_cast<double>(x))/log(2.0))` for `x ≥ 1`, taken as
the exact floor of the base-2 logarithm (the rounding of the `double` quotient is not
modelled). It only sizes the vectors and bounds the loop. -/
def floorLog2 (x : Nat) : Nat :=
  go x x
where
  /-- Halve until below 2. -/
  go : Nat → Nat → Nat
    | 0, _ => 0
    | fuel + 1, n => if n < 2 then 0 else go fuel (n / 2) + 1

/-- The five vectors and the level count that `MPIAllocateComms` works on and returns. -/
structure CommHierarchy where
  numcoms : Nat
  mpi_comms : List MPI_Comm
  mpi_comms_name : List String
  ThisLocalTask : List Nat
  NProcsLocal : List Nat
  NLocalComms : List Nat
  deriving DecidableEq, Repr

/-- The value `NProcs/pow(2,i+1)` stored in the `int` `NLocalComms[i]`. -/
def groupCount (NProcs i : Nat) : Nat := NProcs / 2 ^ (i + 1)

/-- The communicator that the process `ThisTask` obtains at level `i`:
`MPI_Comm_split(MPI_COMM_WORLD, ThisTask % NLocalComms[i], ThisTask, &mpi_comms[i])`,
every process running the same statement with its own rank. -/
def levelComm (NProcs ThisTask i : Nat) : MPI_Comm :=
  MPI_Comm_split NProcs (fun r => r % groupCount NProcs i) (ThisTask % groupCount NProcs i)

/-- The label given to level `i`. -/
def levelName (NProcs ThisTask i : Nat) : String :=
  "Tag_" ++ toString (2 ^ (i + 1)) ++ "_worldrank_"
    ++ toString (MPI_Bcast_root0 NProcs (levelComm NProcs ThisTask i))

/-- The loop `for (auto i=0;i<=numcomsold;i++)` of `MPIAllocateComms`, from index `i`
with `n` iterations left (`n = numcomsold + 1 - i`). -/
def allocLoop (NProcs ThisTask : Nat) : Nat → Nat → CommHierarchy → Option CommHierarchy
  | 0, _, s => some s
  | n + 1, i, s => do
    let nlc ← vecSet s.NLocalComms i (groupCount NProcs i)
    if groupCount NProcs i < 2 then
      some { s with NLocalComms := nlc, numcoms := i + 1 }
    else
      let c := levelComm NProcs ThisTask i
      let comms ← vecSet s.mpi_comms i c
      let ltask ← vecSet s.ThisLocalTask i (MPI_Comm_rank NProcs ThisTask c)
      let nloc ← vecSet s.NProcsLocal i (MPI_Comm_size NProcs c)
      let names ← vecSet s.mpi_comms_name i (levelName NProcs ThisTask i)
      allocLoop NProcs ThisTask n (i + 1)
        { s with NLocalComms := nlc, mpi_comms := comms, ThisLocalTask := ltask,
                 NProcsLocal := nloc, mpi_comms_name := names }

/-- The vectors as allocated on entry, `numcoms = floor(log2 NProcs) + 1` entries each. -/
def allocInit (NProcs : Nat) : CommHierarchy :=
  let numcoms := floorLog2 NProcs + 1
  { numcoms := numcoms
    mpi_comms := List.replicate numcoms .COMM_NULL
    mpi_comms_name := List.replicate numcoms ""
    ThisLocalTask := List.replicate numcoms 0
    NProcsLocal := List.replicate numcoms 0
    NLocalComms := List.replicate numcoms 0 }

/-- The statements after the loop: the last level is the world communicator, and the
vectors are resized to `numcoms`. -/
def allocFinish (NProcs ThisTask : Nat) (s : CommHierarchy) : Option CommHierarchy := do
  let comms ← vecSet s.mpi_comms (s.numcoms - 1) .COMM_WORLD
  let ltask ← vecSet s.ThisLocalTask (s.numcoms - 1) ThisTask
  let nloc ← vecSet s.NProcsLocal (s.numcoms - 1) NProcs
  let nlc ← vecSet s.NLocalComms (s.numcoms - 1) 1
  let names ← vecSet s.mpi_comms_name (s.numcoms - 1) "Tag_world"
  some { numcoms := s.numcoms
         mpi_comms := vecResize .COMM_NULL comms s.numcoms
         mpi_comms_name := vecResize "" names s.numcoms
         ThisLocalTask := vecResize 0 ltask s.numcoms
         NProcsLocal := vecResize 0 nloc s.numcoms
         NLocalComms := vecResize 0 nlc s.numcoms }

/-- The function `MPIAllocateComms()` run by the process of world rank `ThisTask` in a
job of `NProcs` processes; `none` when a vector is accessed out of bounds. -/
def MPIAllocateComms (NProcs ThisTask : Nat) : Option CommHierarchy := do
  let s0 := allocInit NProcs
  let numcomsold := s0.numcoms
  let s ← allocLoop NProcs ThisTask (numcomsold + 1) 0 s0
  allocFinish NProcs ThisTask s

/-- Index of the iteration at which the loop of `MPIAllocateComms` breaks. -/
def breakIndex (NProcs : Nat) : Nat := floorLog2 NProcs - 1

/-- The state of the vectors when the loop is about to run iteration `i`: all five
have the allocated length `N`, and the entries below `i` hold the values of the
levels `0 .. i-1`. -/
structure LoopInv (NProcs ThisTask N i : Nat) (s : CommHierarchy) : Prop where
  len_comms : s.mpi_comms.length = N
  len_names : s.mpi_comms_name.length = N
  len_ltask : s.ThisLocalTask.length = N
  len_nloc : s.NProcsLocal.length = N
  len_nlc : s.NLocalComms.length = N
  comms : s.mpi_comms.take i = (List.range i).map (levelComm NProcs ThisTask)
  names : s.mpi_comms_name.take i = (List.range i).map (levelName NProcs ThisTask)
  ltask : s.ThisLocalTask.take i =
    (List.range i).map (fun j => MPI_Comm_rank NProcs ThisTask (levelComm NProcs ThisTask j))
  nloc : s.NProcsLocal.take i =
    (List.range i).map (fun j => MPI_Comm_size NProcs (levelComm NProcs ThisTask j))
  nlc : s.NLocalComms.take i = (List.range i).map (groupCount NProcs)

/-- The hierarchy of `K + 1` levels: `K` split levels and the world level. -/
def hierarchyOf (NProcs ThisTask K : Nat) : CommHierarchy :=
  { numcoms := K + 1
    mpi_comms := (List.range K).map (levelComm NProcs ThisTask) ++ [.COMM_WORLD]
    mpi_comms_name := (List.range K).map (levelName NProcs ThisTask) ++ ["Tag_world"]
    ThisLocalTask :=
      (List.range K).map (fun j => MPI_Comm_rank NProcs ThisTask (levelComm NProcs ThisTask j))
        ++ [ThisTask]
    NProcsLocal :=
      (List.range K).map (fun j => MPI_Comm_size NProcs (levelComm NProcs ThisTask j))
        ++ [NProcs]
    NLocalComms := (List.range K).map (groupCount NProcs) ++ [1] }

/-- Number of world ranks `r' < NProcs` with `r' mod g = c`: the number of processes
that pass the colour `c` to `MPI_Comm_split` at a level whose `NLocalComms` is `g`. -/
def groupSize (NProcs g c : Nat) : Nat :=
  ((List.range NProcs).filter (fun r' => r' % g = c)).length

/-- The world ranks `r' < NProcs` with `r' mod g = r mod g`: the group of `r` at a level
whose `NLocalComms` is `g`. -/
def groupOf (NProcs g r : Nat) : List Nat :=
  (List.range NProcs).filter (fun r' => r' % g = r % g)

/-! ## TimeStats -/

/-- The four running values of the loop of `TimeStats`. -/
structure StatsAcc (α : Type) where
  ave : α
  std : α
  mint : α
  maxt : α

/-- One iteration of `for (auto &t:times)`. -/
def statsStep {α : Type} [LinearOrderedField α] (a : StatsAcc α) (t : α) : StatsAcc α :=
  { ave := a.ave + t
    std := a.std + t * t
    mint := min a.mint t
    maxt := max a.maxt t }

/-- The function `TimeStats(times)`, returning `(ave, std, mint, maxt)`; `none` for the
empty vector, on which the source reads `times[0]` out of bounds. The arithmetic is that
of a linearly ordered field with square root `sqrt`: the source squares in `float` and
accumulates in `double`, and that rounding is not modelled, so the four numbers are those
of the source only where every operation of the source is exact. -/
def TimeStats {α : Type} [LinearOrderedField α] (sqrt : α → α) (times : List α) :
    Option (α × α × α × α) :=
  match times with
  | [] => none
  | t0 :: _ =>
    let acc := times.foldl statsStep { ave := 0, std := 0, mint := t0, maxt := t0 }
    let n : α := (times.length : α)
    let ave := acc.ave / n
    let std := if n > 1 then sqrt ((acc.std - ave * ave * n) / (n - 1)) else 0
    some (ave, std, acc.mint, acc.maxt)

/-! ## MPISetSize -/

/-- The loop `for (auto i=1;i<sizeofsends.size();i++) sizeofsends[i] = sizeofsends[i-1]/8`. -/
def setSizeLoop (v : List Nat) : List Nat :=
  (List.range' 1 (v.length - 1)).foldl (fun w i => w.set i (w.getD (i - 1) 0 / 8)) v

/-- The function `MPISetSize(maxgb)`. The argument is the exact value of the `double`;
the products by `1024.0` and the quotient by `sizeof(double) = 8` are exact in binary
floating point (they change the exponent only). The conversion of the `double` `x` to
`unsigned long long` truncates towards zero and is defined when the truncated value is in
the range of the type, that is for `-1 < x < 2^64`; outside of it the behaviour of the
source is undefined, which is the result `none`. `std::sort` is the ascending sort. -/
def MPISetSize (maxgb : ℚ) : Option (List Nat) :=
  let x : ℚ := 1024 * 1024 * 1024 * maxgb / 8
  if -1 < x ∧ x < 2 ^ 64 then
    let sizeofsends : List Nat := List.replicate 4 0
    let sizeofsends := sizeofsends.set 0 ⌊x⌋₊
    let sizeofsends := setSizeLoop sizeofsends
    some (sizeofsends.insertionSort (· ≤ ·))
  else none

/-! ## Message tags of the exchange workload -/

/-- The exact value of the expression `isend*NProcsLocal[j]+ThisLocalTask[j]`, the tag
that the member of local rank `me` attaches to its `MPI_Isend` to the local rank `isend`,
in a group of `N` members. The `int` that the source stores it in is `sendTagInt`. -/
def sendTag (N me isend : Nat) : Nat := isend * N + me

/-- The value of a 32-bit two's complement `int` holding the result of an operation whose
exact value is `x`: `x` itself when `-2^31 ≤ x < 2^31`, and the value that wraps around
otherwise (signed overflow is undefined in C++; the targets compute modulo `2^32`). -/
def wrapInt32 (x : Int) : Int := (x + 2 ^ 31) % 2 ^ 32 - 2 ^ 31

/-- The variable `int tag = isend*NProcsLocal[j]+ThisLocalTask[j]` of the sender: the
product and the sum are computed in `int`. -/
def sendTagInt (N me isend : Nat) : Int :=
  wrapInt32 (wrapInt32 ((isend : Int) * (N : Int)) + (me : Int))

/-- The variable `int tag = ThisLocalTask[j]*NProcsLocal[j]+irecv` of the receiver. -/
def recvTagInt (N me irecv : Nat) : Int :=
  wrapInt32 (wrapInt32 ((me : Int) * (N : Int)) + (irecv : Int))

/-! ## MPITestCPUCorrectSendRecv -/

/-- Which of the two checks of the root called `MPI_Abort`. -/
inductive CheckFailure where
  | wrongSize : CheckFailure
  | wrongData : CheckFailure
  deriving DecidableEq, Repr

/-- A call `MPI_Abort(comm, errorcode)`, with the sender `itask` being checked and the
check that failed. The call ends the run of every process of `comm`. -/
structure Abort where
  comm : MPI_Comm
  errorcode : Nat
  itask : Nat
  what : CheckFailure
  deriving DecidableEq, Repr

/-- The loop `for (auto i=0;i<oldsize;i++) if (data[i] != refdata[i]) {... MPI_Abort(MPI_COMM_WORLD,8);}`
over the indices still to be compared. -/
def compareLoop (itask : Nat) (data refdata : List ℚ) : List Nat → Except Abort Unit
  | [] => .ok ()
  | i :: rest =>
    if data.getD i 0 ≠ refdata.getD i 0 then
      .error { comm := .COMM_WORLD, errorcode := 8, itask := itask, what := .wrongData }
    else compareLoop itask data refdata rest

/-- One iteration of the loop of the root for the sender `itask`, whose two messages are
the declared size `msg.1` and the payload `msg.2`; `data` is the receive buffer, returned
as the iteration leaves it. `doubles` are taken with their exact values. -/
def rootReceive (oldsize itask : Nat) (msg : Nat × List ℚ) (data : List ℚ) :
    Except Abort (List ℚ) :=
  let size := msg.1
  if size ≠ oldsize then
    .error { comm := .COMM_WORLD, errorcode := 8, itask := itask, what := .wrongSize }
  else
    let data := vecResize 0 data size
    let data := msg.2.take size ++ data.drop msg.2.length
    let refdata := List.replicate oldsize ((2 : ℚ) ^ itask)
    match compareLoop itask data refdata (List.range oldsize) with
    | .error a => .error a
    | .ok () => .ok data

/-- The loop `for (auto itask = 0;itask<NProcs;itask++)` of the root over the ranks still
to be received from. -/
def rootLoop (roottask oldsize : Nat) (msgs : Nat → Nat × List ℚ) :
    List Nat → List ℚ → Except Abort (List ℚ)
  | [], data => .ok data
  | itask :: rest, data =>
    if itask = roottask then rootLoop roottask oldsize msgs rest data
    else
      match rootReceive oldsize itask (msgs itask) data with
      | .error a => .error a
      | .ok data => rootLoop roottask oldsize msgs rest data

/-- The two messages that a process other than the root sends: its `size = data.size()`
and its buffer of 5 values `pow(2.0,ThisTask)`. -/
def senderMessage (ThisTask : Nat) : Nat × List ℚ :=
  let data := List.replicate 5 ((2 : ℚ) ^ ThisTask)
  (data.length, data)

/-- The function `MPITestCPUCorrectSendRecv` as run by the process `ThisTask`, where
`msgs k` is what the root receives from rank `k`: `.ok ()` when the function returns,
`.error a` when it calls `MPI_Abort`. -/
def MPITestCPUCorrectSendRecv (NProcs ThisTask roottask : Nat) (msgs : Nat → Nat × List ℚ) :
    Except Abort Unit :=
  let size := 5
  let data := List.replicate size ((2 : ℚ) ^ ThisTask)
  if ThisTask = roottask then
    let oldsize := size
    match rootLoop roottask oldsize msgs (List.range NProcs) data with
    | .error a => .error a
    | .ok _ => .ok ()
  else .ok ()

/-- The messages of rank `k` that pass both checks of the root: the declared size is 5
and every payload element is `2^k`. -/
def acceptedMessage (k : Nat) (msg : Nat × List ℚ) : Prop :=
  msg.1 = 5 ∧ ∀ x ∈ msg.2, x = (2 : ℚ) ^ k

/-! ## The device runtime and `profiling_util::Timer` -/

/-- The calls to the device runtime that `Timer` makes. -/
inductive GpuCall where
  | SetDevice (d : Nat) : GpuCall
  | EventCreate (e : Nat) : GpuCall
  | EventRecord (e : Nat) : GpuCall
  | EventSynchronize (e : Nat) : GpuCall
  | EventElapsedTime (e0 e1 : Nat) : GpuCall
  | EventDestroy (e : Nat) : GpuCall
  deriving DecidableEq, Repr

/-- The state of the device runtime of one process: the number of visible devices, the
active device, the next fresh event handle, and the calls made so far, oldest first, each
with the device that was active when it was made. -/
structure GpuState where
  ndevices : Nat
  curDevice : Nat
  nextEvent : Nat
  calls : List (GpuCall × Nat)
  deriving DecidableEq, Repr

/-- Record a call made on the active device. -/
def logCall (c : GpuCall) (g : GpuState) : GpuState :=
  { g with calls := g.calls ++ [(c, g.curDevice)] }

/-- The call `pu_gpuErrorCheck(pu_gpuSetDevice(d))`: `none` when the device does not
exist, in which case the macro ends the process. -/
def pu_gpuSetDevice (d : Nat) (g : GpuState) : Option GpuState :=
  if d < g.ndevices then some { logCall (.SetDevice d) g with curDevice := d } else none

/-- The call `pu_gpuErrorCheck(pu_gpuEventCreate(&e))`: a fresh handle. -/
def pu_gpuEventCreate (g : GpuState) : Nat × GpuState :=
  (g.nextEvent, { logCall (.EventCreate g.nextEvent) g with nextEvent := g.nextEvent + 1 })

/-- The call `pu_gpuErrorCheck(pu_gpuEventRecord(e))`. -/
def pu_gpuEventRecord (e : Nat) (g : GpuState) : GpuState := logCall (.EventRecord e) g

/-- The call `pu_gpuErrorCheck(pu_gpuEventSynchronize(e))`. -/
def pu_gpuEventSynchronize (e : Nat) (g : GpuState) : GpuState :=
  logCall (.EventSynchronize e) g

/-- The call `pu_gpuErrorCheck(pu_gpuEventElapsedTime(&telapsed,e0,e1))`. -/
def pu_gpuEventElapsedTime (e0 e1 : Nat) (g : GpuState) : GpuState :=
  logCall (.EventElapsedTime e0 e1) g

/-- The call `pu_gpuErrorCheck(pu_gpuEventDestroy(e))`. -/
def pu_gpuEventDestroy (e : Nat) (g : GpuState) : GpuState := logCall (.EventDestroy e) g

/-- Number of calls `pu_gpuEventDestroy(e)` made so far. -/
def destroyCount (e : Nat) (g : GpuState) : Nat :=
  (g.calls.filter (fun c => c.1 = GpuCall.EventDestroy e)).length

/-- Number of calls `pu_gpuEventCreate` that returned the handle `e` so far. -/
def createCount (e : Nat) (g : GpuState) : Nat :=
  (g.calls.filter (fun c => c.1 = GpuCall.EventCreate e)).length

/-- The data members of `profiling_util::Timer` (built with `_GPU`); time points are
nanoseconds of the host clock. -/
structure Timer where
  t0 : Int
  tref : Int
  ref : String
  use_device : Bool
  t0_event : Nat
  device_id : Nat
  other_device_id : Nat
  swap_device : Bool
  deriving DecidableEq, Repr

namespace Timer

/-- The constructor `Timer(f, l, _use_device)` run at host time `now`. -/
def new (f l : String) (_use_device : Bool) (now : Int) (g : GpuState) : Timer × GpuState :=
  let ref := "@" ++ f ++ " L" ++ l
  let t0 := now
  let tref := t0
  let use_device := _use_device
  let ndevices := g.ndevices
  let use_device := if ndevices = 0 then false else use_device
  if use_device then
    let device_id := g.curDevice
    let (t0_event, g) := pu_gpuEventCreate g
    let g := pu_gpuEventRecord t0_event g
    let g := pu_gpuEventSynchronize t0_event g
    let other_device_id := device_id
    ({ t0 := t0, tref := tref, ref := ref, use_device := use_device, t0_event := t0_event,
       device_id := device_id, other_device_id := other_device_id, swap_device := false }, g)
  else
    ({ t0 := t0, tref := tref, ref := ref, use_device := use_device, t0_event := 0,
       device_id := 0, other_device_id := 0, swap_device := false }, g)

/-- The method `get()` evaluated at host time `now`. -/
def get (t : Timer) (now : Int) : Int := now - t.tref

/-- The method `get_creation()` evaluated at host time `now`. -/
def get_creation (t : Timer) (now : Int) : Int := now - t.t0

/-- The method `get_ref_device()`. -/
def get_ref_device (t : Timer) (g : GpuState) : Option (Timer × GpuState) :=
  let t := { t with other_device_id := g.curDevice }
  let t := { t with swap_device := (t.other_device_id != t.device_id) }
  if t.swap_device then
    match pu_gpuSetDevice t.device_id g with
    | none => none
    | some g => some (t, g)
  else some (t, g)

/-- The method `set_cur_device()`. -/
def set_cur_device (t : Timer) (g : GpuState) : Option GpuState :=
  if t.swap_device then pu_gpuSetDevice t.other_device_id g else some g

/-- The method `get_on_device()`; `ms` is the value that `pu_gpuEventElapsedTime` writes
into `telapsed`. Returns the elapsed time, the timer and the runtime state. -/
def get_on_device (t : Timer) (ms : ℚ) (g : GpuState) : Option (ℚ × Timer × GpuState) :=
  if !t.use_device then some (0, t, g)
  else
    match t.get_ref_device g with
    | none => none
    | some (t, g) =>
      let (t1_event, g) := pu_gpuEventCreate g
      let g := pu_gpuEventRecord t1_event g
      let g := pu_gpuEventSynchronize t1_event g
      let g := pu_gpuEventElapsedTime t.t0_event t1_event g
      let telapsed := ms * (1 / 1000 * 1000000000)
      let g := pu_gpuEventDestroy t1_event g
      match t.set_cur_device g with
      | none => none
      | some g => some (telapsed, t, g)

/-- The method `set_ref(new_ref)` run at host time `now`. -/
def set_ref (t : Timer) (new_ref : String) (now : Int) (g : GpuState) :
    Option (Timer × GpuState) :=
  let t := { t with ref := new_ref }
  let t := { t with t0 := now }
  if t.use_device then
    match pu_gpuSetDevice t.device_id g with
    | none => none
    | some g =>
      let g := pu_gpuEventDestroy t.t0_event g
      let t := { t with device_id := g.curDevice }
      let (e, g) := pu_gpuEventCreate g
      let t := { t with t0_event := e }
      let g := pu_gpuEventRecord t.t0_event g
      let g := pu_gpuEventSynchronize t.t0_event g
      let t := { t with other_device_id := t.device_id }
      let t := { t with swap_device := false }
      some (t, g)
  else some (t, g)

/-- The method `get_device_swap_info()`. -/
def get_device_swap_info (t : Timer) : String :=
  if t.swap_device then
    "WARNING: Device swapped during timing: currently on " ++ toString t.other_device_id
      ++ " but measuring on " ++ toString t.device_id ++ " : "
  else ""

/-- The destructor `~Timer()`. -/
def destroy (t : Timer) (g : GpuState) : Option GpuState :=
  if t.use_device then
    if t.swap_device then
      match pu_gpuSetDevice t.device_id g with
      | none => none
      | some g => pu_gpuSetDevice t.other_device_id (pu_gpuEventDestroy t.t0_event g)
    else some (pu_gpuEventDestroy t.t0_event g)
  else some g

end Timer

/-! ## Timers in the benchmark -/

/-- The function `MPIGatherTimeStats(time1, f, l)` at the process `ThisTask`. The
parameter `time1` is taken by value, so it is a copy of the caller's timer made by the
implicit copy constructor, and it is destroyed when the function returns. `time_taken k`
is the value that `GetTimeTaken` returned at rank `k` (that function only reads the
timer); rank 0 receives the values of all ranks in rank order, the other ranks keep the
zero-initialised vector. -/
def MPIGatherTimeStats {α : Type} [Zero α] (NProcs ThisTask : Nat) (time1 : Timer)
    (time_taken : Nat → α) (g : GpuState) : Option (List α × GpuState) :=
  let times : List α := List.replicate NProcs 0
  let times := if ThisTask = 0 then (List.range NProcs).map time_taken else times
  match time1.destroy g with
  | none => none
  | some g => some (times, g)

/-- The body of the loop `for (auto iter=0;iter<opt.Niter;iter++)` of
`MPITestCPUAllReduce`, run at host time `now`: `auto time2 = NewTimer();`, the reduction
(no call to the device runtime), `MPIGatherTimeStats(time2, ...)`, and the destruction of
`time2` at the end of the body. Returns the gathered values and the runtime state. -/
def allReduceIteration {α : Type} [Zero α] (NProcs ThisTask : Nat) (now : Int)
    (time_taken : Nat → α) (g : GpuState) : Option (List α × GpuState) :=
  let (time2, g) := Timer.new "MPITestCPUAllReduce" "306" true now g
  match MPIGatherTimeStats NProcs ThisTask time2 time_taken g with
  | none => none
  | some (times_tmp, g) =>
    match time2.destroy g with
    | none => none
    | some g => some (times_tmp, g)

/-- The timers of `vector_sq_and_sum_cpu` (gpu-openmp.cpp): `auto t1 = NewTimer();`, then
`t1 = NewTimer();`, which builds a temporary, copies its members into `t1` by the implicit
copy assignment and destroys the temporary, and the destruction of `t1` on return. -/
def timerReassignment (now1 now2 : Int) (g : GpuState) : Option GpuState :=
  let (_t1, g) := Timer.new "vector_sq_and_sum_cpu" "48" true now1 g
  let (tmp, g) := Timer.new "vector_sq_and_sum_cpu" "62" true now2 g
  let t1 := tmp
  match tmp.destroy g with
  | none => none
  | some g => t1.destroy g

/-! ## MPIFreeComms and the life of the communicators -/

/-- The loop `for (auto i=0;i<mpi_comms.size()-1;i++)` of `MPIFreeComms` with `n`
iterations left: on rank 0 the log line reads `mpi_comms_name[i]`, then
`MPI_Comm_free(&mpi_comms[i])` releases the communicator and sets the handle to
`MPI_COMM_NULL`. `freed` lists the released (index, communicator), oldest first. -/
def freeLoop (ThisTask : Nat) (mpi_comms_name : List String) :
    Nat → Nat → List MPI_Comm → List (Nat × MPI_Comm) →
      Option (List MPI_Comm × List (Nat × MPI_Comm))
  | 0, _, mpi_comms, freed => some (mpi_comms, freed)
  | n + 1, i, mpi_comms, freed =>
    if ThisTask = 0 ∧ mpi_comms_name.length ≤ i then none
    else
      match mpi_comms[i]? with
      | none => none
      | some c =>
        match vecSet mpi_comms i .COMM_NULL with
        | none => none
        | some mpi_comms' =>
          freeLoop ThisTask mpi_comms_name n (i + 1) mpi_comms' (freed ++ [(i, c)])

/-- The function `MPIFreeComms(mpi_comms, mpi_comms_name)`; the bound
`mpi_comms.size()-1` is computed in 64-bit unsigned arithmetic. Returns the vector of
handles after the call and the released communicators; `none` on an access out of
bounds. -/
def MPIFreeComms (ThisTask : Nat) (mpi_comms : List MPI_Comm) (mpi_comms_name : List String) :
    Option (List MPI_Comm × List (Nat × MPI_Comm)) :=
  freeLoop ThisTask mpi_comms_name ((mpi_comms.length + 2 ^ 64 - 1) % 2 ^ 64) 0 mpi_comms []

/-- The communicators created by `MPI_Comm_split` and those released by `MPI_Comm_free`
in a run, oldest first. -/
structure CommLedger where
  created : List MPI_Comm
  freed : List MPI_Comm
  deriving DecidableEq, Repr

/-- The created communicators not yet released: each release cancels one creation. -/
def CommLedger.unreleased (L : CommLedger) : List MPI_Comm := L.created.diff L.freed

/-- The communicators that a call of `MPIAllocateComms` created with `MPI_Comm_split`:
the entries below `numcoms - 1` (the entry `numcoms - 1` is `MPI_COMM_WORLD`). -/
def splitComms (h : CommHierarchy) : List MPI_Comm := h.mpi_comms.take (h.numcoms - 1)

/-- The struct `Options` with its default member initialisers. -/
structure Options where
  icpu : Bool := false
  igpu : Bool := true
  roottask : Nat := 0
  othertask : Nat := 1
  usesend : Nat := 0
  maxgb : ℚ := 1
  msize : Nat := 1000
  Niter : Nat := 1

/-- The calls of `MPITestCPUSendRecv` that create or release communicators: one call of
`MPIAllocateComms`, and no call of `MPIFreeComms`. -/
def MPITestCPUSendRecv_comms (NProcs ThisTask : Nat) (L : CommLedger) : Option CommLedger :=
  match MPIAllocateComms NProcs ThisTask with
  | none => none
  | some h => some { L with created := L.created ++ splitComms h }

/-- The calls of `MPITestCPUAllReduce` that create or release communicators: one call of
`MPIAllocateComms` and, at the end, `MPIFreeComms(mpi_comms, mpi_comms_name)`. -/
def MPITestCPUAllReduce_comms (NProcs ThisTask : Nat) (L : CommLedger) : Option CommLedger :=
  match MPIAllocateComms NProcs ThisTask with
  | none => none
  | some h =>
    match MPIFreeComms ThisTask h.mpi_comms h.mpi_comms_name with
    | none => none
    | some (_, freed) =>
      some { created := L.created ++ splitComms h, freed := L.freed ++ freed.map Prod.snd }

/-- The calls of `MPITestGPUSendRecv` that create or release communicators: one call of
`MPIAllocateComms`, and no call of `MPIFreeComms`. -/
def MPITestGPUSendRecv_comms (NProcs ThisTask : Nat) (L : CommLedger) : Option CommLedger :=
  match MPIAllocateComms NProcs ThisTask with
  | none => none
  | some h => some { L with created := L.created ++ splitComms h }

/-- The function `MPIRunTests(opt)`, followed through the communicators it creates and
releases, when every test returns (`MPITestCPUCorrectSendRecv`, `MPITestGPUCorrectSendRecv`
and `MPITestGPUAllReduce` create and release none). -/
def MPIRunTests (opt : Options) (NProcs ThisTask : Nat) (L : CommLedger) : Option CommLedger :=
  let afterCpu : Option CommLedger :=
    if opt.icpu then
      match MPITestCPUSendRecv_comms NProcs ThisTask L with
      | none => none
      | some L => MPITestCPUAllReduce_comms NProcs ThisTask L
    else some L
  match afterCpu with
  | none => none
  | some L => if opt.igpu then MPITestGPUSendRecv_comms NProcs ThisTask L else some L

/-! ## pu_gpuErrorCheck -/

/-- How the run of a process ends before the end of `main`: by `exit(status)`, which ends
the calling process only, or by `MPI_Abort(comm, errorcode)`, which ends the processes of
`comm`. -/
inductive ProcessEnd where
  | exit (status : Int) : ProcessEnd
  | mpiAbort (comm : MPI_Comm) (errorcode : Nat) : ProcessEnd
  deriving DecidableEq, Repr

/-- The value `pu_gpuSuccess` (`hipSuccess`, `cudaSuccess`). -/
def pu_gpuSuccess : Nat := 0

/-- The macro `pu_gpuErrorCheck(call)`, where `pu_gpuErr` is the value that `call`
returned: on an error it prints the error string and calls `exit(0)`. -/
def pu_gpuErrorCheck (pu_gpuErr : Nat) : Except ProcessEnd Unit :=
  if pu_gpuSuccess ≠ pu_gpuErr then .error (.exit 0) else .ok ()

/-- A sequence of calls each wrapped in `pu_gpuErrorCheck`, given the values they return. -/
def checkedCalls : List Nat → Except ProcessEnd Unit
  | [] => .ok ()
  | err :: rest =>
    match pu_gpuErrorCheck err with
    | .error e => .error e
    | .ok () => checkedCalls rest

/-- The loop `for (auto idev=0;idev<nDevices;idev++)` of `MPITestGPUSendRecv` that
allocates on each device, over the devices still to be visited: `pu_gpuSetDevice`, two
`pu_gpuHostMalloc` and two `pu_gpuMemcpy`, where `ret idev c` is the value returned by the
call number `c` on the device `idev`. -/
def gpuAllocLoop (ret : Nat → Nat → Nat) : List Nat → Except ProcessEnd Unit
  | [] => .ok ()
  | idev :: rest =>
    match checkedCalls [ret idev 0, ret idev 1, ret idev 2, ret idev 3, ret idev 4] with
    | .error e => .error e
    | .ok () => gpuAllocLoop ret rest

/-! ## The exchange workload -/

/-- The body of the loop `for (auto iter=0;iter<opt.Niter;iter++)` of
`MPITestCPUSendRecv`, run at host time `now`: `auto time2 = NewTimer();`, the sends and
receives (no call to the device runtime), `MPIGatherTimeStats(time2, ...)`, and the
destruction of `time2` at the end of the body. Returns the gathered values and the runtime
state. -/
def sendRecvIteration {α : Type} [Zero α] (NProcs ThisTask : Nat) (now : Int)
    (time_taken : Nat → α) (g : GpuState) : Option (List α × GpuState) :=
  let (time2, g) := Timer.new "MPITestCPUSendRecv" "220" true now g
  match MPIGatherTimeStats NProcs ThisTask time2 time_taken g with
  | none => none
  | some (times_tmp, g) =>
    match time2.destroy g with
    | none => none
    | some g => some (times_tmp, g)

/-- The loop `for (auto iter=0;iter<opt.Niter;iter++)` around a body, with `n` iterations
left from iteration `iter`: each one appends its gathered values to `times`
(`times.insert(times.end(), times_tmp.begin(), times_tmp.end())`). -/
def timesLoop {α : Type} (body : Nat → GpuState → Option (List α × GpuState)) :
    Nat → Nat → List α → GpuState → Option (List α × GpuState)
  | 0, _, times, g => some (times, g)
  | n + 1, iter, times, g =>
    match body iter g with
    | none => none
    | some (times_tmp, g) => timesLoop body n (iter + 1) (times ++ times_tmp) g

/-- The vector `times` that `MPITestCPUSendRecv` passes to `MPIReportTimeStats`, hence to
`TimeStats`, for one message size and one level of the hierarchy: `now iter` is the host
time at which iteration `iter` starts and `time_taken iter k` the value that
`GetTimeTaken` returns at rank `k` in that iteration. -/
def MPITestCPUSendRecv_times {α : Type} [Zero α] (NProcs ThisTask Niter : Nat)
    (now : Nat → Int) (time_taken : Nat → Nat → α) (g : GpuState) :
    Option (List α × GpuState) :=
  timesLoop (fun iter g => sendRecvIteration NProcs ThisTask (now iter) (time_taken iter) g)
    Niter 0 [] g

/-- The vector `times` that `MPITestCPUAllReduce` passes to `MPIReportTimeStats`, hence to
`TimeStats`, for one message size and one level of the hierarchy. -/
def MPITestCPUAllReduce_times {α : Type} [Zero α] (NProcs ThisTask Niter : Nat)
    (now : Nat → Int) (time_taken : Nat → Nat → α) (g : GpuState) :
    Option (List α × GpuState) :=
  timesLoop (fun iter g => allReduceIteration NProcs ThisTask (now iter) (time_taken iter) g)
    Niter 0 [] g

/-! ## Printing amounts of memory and of time -/

/-- What is sent to the stream: `os << v << suffix` for an integer `v`, or
`os << fixed<3>(v) << suffix` for a `float` `v` (taken with its exact value). -/
inductive Printed where
  | integer (v : Int) (suffix : String) : Printed
  | fixed3 (v : ℚ) (suffix : String) : Printed
  deriving DecidableEq

/-- The operator `os << memory_amount(amount)`; the `float` `v` is taken with the exact
value of the quotient (no rounding). This is the value of the `float` of the source when
`amount` has at most 24 significant bits, in particular at the powers of two; for other
amounts the source rounds `v` and may print another unit than this definition. -/
def memory_amount (amount : Nat) : Printed :=
  if amount < 1024 then .integer amount " [B]"
  else
    let v : ℚ := amount / 1024
    let suffix := " [KiB]"
    let (v, suffix) := if v > 1024 then (v / 1024, " [MiB]") else (v, suffix)
    let (v, suffix) := if v > 1024 then (v / 1024, " [GiB]") else (v, suffix)
    let (v, suffix) := if v > 1024 then (v / 1024, " [TiB]") else (v, suffix)
    let (v, suffix) := if v > 1024 then (v / 1024, " [PiB]") else (v, suffix)
    let (v, suffix) := if v > 1024 then (v / 1024, " [EiB]") else (v, suffix)
    .fixed3 v suffix

/-- The operator `os << ns_time(amount)`; `time /= 1000` is the integer division of C++,
and `ftime` is assigned before each test but sent to the stream only in the last branch. -/
def ns_time (amount : Int) : Printed :=
  let time := amount
  let _ftime : ℚ := time
  if time < 1000 then .integer time " [ns]"
  else
    let _ftime : ℚ := time / 1000
    let time := time.tdiv 1000
    if time < 1000 then .integer time " [us]"
    else
      let _ftime : ℚ := time / 1000
      let time := time.tdiv 1000
      if time < 1000 then .integer time " [ms]"
      else
        let ftime : ℚ := time / 1000
        let (ftime, suffix) :=
          if ftime > 60 then
            let ftime := ftime / 60
            if ftime > 60 then
              let ftime := ftime / 60
              if ftime > 24 then (ftime / 24, " [d]") else (ftime, " [h]")
            else (ftime, " [min]")
          else (ftime, " [s]")
        .fixed3 ftime suffix

/-! ## memory_usage -/

/-- The struct `memory_stats`; the members are 64-bit unsigned. -/
structure memory_stats where
  current : Nat := 0
  peak : Nat := 0
  change : Nat := 0
  deriving DecidableEq, Repr

/-- The struct `memory_usage`. -/
structure memory_usage where
  vm : memory_stats := {}
  rss : memory_stats := {}
  deriving DecidableEq, Repr

/-- The operator `memory_usage::operator+=(rhs)` applied to `a`: the value of `*this`
after the call. -/
def memory_usage.addAssign (a rhs : memory_usage) : memory_usage :=
  let a := { a with vm := { a.vm with current := (a.vm.current + rhs.vm.current) % 2 ^ 64 } }
  let a := if a.vm.peak < rhs.vm.peak then { a with vm := { a.vm with peak := rhs.vm.peak } }
    else a
  let a := { a with vm := { a.vm with change := (a.vm.change + rhs.vm.change) % 2 ^ 64 } }
  let a := { a with rss := { a.rss with current := (a.rss.current + rhs.rss.current) % 2 ^ 64 } }
  let a := if a.rss.peak < rhs.rss.peak then { a with vm := { a.vm with peak := rhs.rss.peak } }
    else a
  let a := { a with rss := { a.rss with change := (a.rss.change + rhs.rss.change) % 2 ^ 64 } }
  a

/-! ## Facts on vectors -/

theorem vecSet_of_lt {α : Type} (v : List α) (i : Nat) (x : α) (h : i < v.length) :
    vecSet v i x = some (v.set i x) := by
  simp [vecSet, h]

theorem take_set_same {α : Type} (x : α) :
    ∀ (l : List α) (i : Nat), (l.set i x).take i = l.take i
  | [], i => by simp
  | _ :: _, 0 => by simp
  | a :: l, i + 1 => by simp [take_set_same x l i]

theorem take_succ_set {α : Type} (x : α) :
    ∀ (l : List α) (i : Nat), i < l.length → (l.set i x).take (i + 1) = l.take i ++ [x]
  | [], i, h => by simp at h
  | _ :: _, 0, _ => by simp
  | a :: l, i + 1, h => by
    have h' : i < l.length := by simpa using h
    simp [take_succ_set x l i h']

theorem vecResize_set {α : Type} (dflt x : α) (l : List α) (i : Nat) (h : i < l.length) :
    vecResize dflt (l.set i x) (i + 1) = l.take i ++ [x] := by
  have hz : i + 1 - l.length = 0 := by omega
  simp [vecResize, take_succ_set x l i h, hz]

/-! ## Facts on `floorLog2` and `groupCount` -/

theorem floorLog2_go_eq (fuel : Nat) : ∀ n, n ≤ fuel → floorLog2.go fuel n = Nat.log 2 n := by
  induction fuel with
  | zero =>
    intro n hn
    have : n = 0 := by omega
    subst this
    simp [floorLog2.go]
  | succ f ih =>
    intro n hn
    unfold floorLog2.go
    by_cases h2 : n < 2
    · simp [h2, Nat.log_of_lt h2]
    · have hle : 2 ≤ n := by omega
      have hdiv : n / 2 ≤ f := by omega
      rw [if_neg h2, ih _ hdiv, Nat.log_of_one_lt_of_le (by decide) hle]

theorem floorLog2_eq_log (x : Nat) : floorLog2 x = Nat.log 2 x :=
  floorLog2_go_eq x x (Nat.le_refl x)

theorem breakIndex_lt (T : Nat) : breakIndex T < floorLog2 T + 1 := by
  unfold breakIndex; omega

theorem groupCount_ge_two (T j : Nat) (h : j < breakIndex T) : 2 ≤ groupCount T j := by
  unfold breakIndex at h
  rw [floorLog2_eq_log] at h
  have hT : T ≠ 0 := by
    intro h0; subst h0; simp at h
  have hpow : 2 ^ (j + 2) ≤ T :=
    le_trans (Nat.pow_le_pow_right (by decide) (by omega)) (Nat.pow_log_le_self 2 hT)
  unfold groupCount
  rw [Nat.le_div_iff_mul_le (by positivity)]
  calc 2 * 2 ^ (j + 1) = 2 ^ (j + 2) := by ring
    _ ≤ T := hpow

theorem groupCount_break_lt_two (T : Nat) : groupCount T (breakIndex T) < 2 := by
  unfold groupCount breakIndex
  rw [floorLog2_eq_log, Nat.div_lt_iff_lt_mul (by positivity)]
  have h1 : T < 2 ^ (Nat.log 2 T + 1) := Nat.lt_pow_succ_log_self (by decide) T
  have h2 : 2 ^ (Nat.log 2 T + 1) ≤ 2 ^ (Nat.log 2 T - 1 + 1 + 1) :=
    Nat.pow_le_pow_right (by decide) (by omega)
  calc T < 2 ^ (Nat.log 2 T + 1) := h1
    _ ≤ 2 ^ (Nat.log 2 T - 1 + 1 + 1) := h2
    _ = 2 * 2 ^ (Nat.log 2 T - 1 + 1) := by ring

/-! ## The loop of `MPIAllocateComms` -/

theorem take_succ_set_map {α : Type} (f : Nat → α) (l : List α) (i : Nat)
    (hlen : i < l.length) (h : l.take i = (List.range i).map f) :
    (l.set i (f i)).take (i + 1) = (List.range (i + 1)).map f := by
  rw [take_succ_set _ l i hlen, h, List.range_succ, List.map_append]
  rfl

theorem allocLoop_spec (T r N : Nat) (hN : breakIndex T < N) :
    ∀ (d i n : Nat) (s : CommHierarchy), i + d = breakIndex T → d < n →
      LoopInv T r N i s →
      ∃ s', allocLoop T r n i s = some s' ∧ s'.numcoms = breakIndex T + 1 ∧
        LoopInv T r N (breakIndex T) s' := by
  intro d
  induction d with
  | zero =>
    intro i n s hi hn hinv
    have hiK : i = breakIndex T := by omega
    subst hiK
    obtain ⟨n', rfl⟩ : ∃ n', n = n' + 1 := ⟨n - 1, by omega⟩
    have hlt : groupCount T (breakIndex T) < 2 := groupCount_break_lt_two T
    refine ⟨{ s with NLocalComms := s.NLocalComms.set (breakIndex T) (groupCount T (breakIndex T)),
                     numcoms := breakIndex T + 1 }, ?_, rfl, ?_⟩
    · simp [allocLoop, vecSet_of_lt _ _ _ (hinv.len_nlc ▸ hN), hlt]
    · exact
        { len_comms := hinv.len_comms, len_names := hinv.len_names
          len_ltask := hinv.len_ltask, len_nloc := hinv.len_nloc
          len_nlc := by simp [hinv.len_nlc]
          comms := hinv.comms, names := hinv.names, ltask := hinv.ltask, nloc := hinv.nloc
          nlc := by simp [take_set_same, hinv.nlc] }
  | succ d ih =>
    intro i n s hi hn hinv
    obtain ⟨n', rfl⟩ : ∃ n', n = n' + 1 := ⟨n - 1, by omega⟩
    have hiK : i < breakIndex T := by omega
    have hiN : i < N := by omega
    have hge : ¬ groupCount T i < 2 := by
      have := groupCount_ge_two T i hiK
      omega
    have hstep : allocLoop T r (n' + 1) i s = allocLoop T r n' (i + 1)
        { s with
          NLocalComms := s.NLocalComms.set i (groupCount T i)
          mpi_comms := s.mpi_comms.set i (levelComm T r i)
          ThisLocalTask := s.ThisLocalTask.set i (MPI_Comm_rank T r (levelComm T r i))
          NProcsLocal := s.NProcsLocal.set i (MPI_Comm_size T (levelComm T r i))
          mpi_comms_name := s.mpi_comms_name.set i (levelName T r i) } := by
      simp [allocLoop, vecSet_of_lt _ _ _ (hinv.len_nlc ▸ hiN),
        vecSet_of_lt _ _ _ (hinv.len_comms ▸ hiN), vecSet_of_lt _ _ _ (hinv.len_ltask ▸ hiN),
        vecSet_of_lt _ _ _ (hinv.len_nloc ▸ hiN), vecSet_of_lt _ _ _ (hinv.len_names ▸ hiN), hge]
    rw [hstep]
    apply ih (i + 1) n' _ (by omega) (by omega)
    exact
      { len_comms := by simp [hinv.len_comms]
        len_names := by simp [hinv.len_names]
        len_ltask := by simp [hinv.len_ltask]
        len_nloc := by simp [hinv.len_nloc]
        len_nlc := by simp [hinv.len_nlc]
        comms := take_succ_set_map _ _ i (hinv.len_comms ▸ hiN) hinv.comms
        names := take_succ_set_map _ _ i (hinv.len_names ▸ hiN) hinv.names
        ltask := take_succ_set_map
          (fun j => MPI_Comm_rank T r (levelComm T r j)) _ i (hinv.len_ltask ▸ hiN) hinv.ltask
        nloc := take_succ_set_map
          (fun j => MPI_Comm_size T (levelComm T r j)) _ i (hinv.len_nloc ▸ hiN) hinv.nloc
        nlc := take_succ_set_map _ _ i (hinv.len_nlc ▸ hiN) hinv.nlc }

theorem allocInit_inv (T r : Nat) : LoopInv T r (floorLog2 T + 1) 0 (allocInit T) := by
  constructor <;> simp [allocInit]

theorem allocFinish_spec (T r N : Nat) (s : CommHierarchy) (hN : breakIndex T < N)
    (hnum : s.numcoms = breakIndex T + 1) (hinv : LoopInv T r N (breakIndex T) s) :
    allocFinish T r s = some (hierarchyOf T r (breakIndex T)) := by
  simp only [allocFinish, hnum, Nat.add_sub_cancel, vecSet_of_lt _ _ _ (hinv.len_nlc ▸ hN),
    vecSet_of_lt _ _ _ (hinv.len_comms ▸ hN), vecSet_of_lt _ _ _ (hinv.len_ltask ▸ hN),
    vecSet_of_lt _ _ _ (hinv.len_nloc ▸ hN), vecSet_of_lt _ _ _ (hinv.len_names ▸ hN),
    Option.bind_eq_bind, Option.some_bind,
    vecResize_set _ _ _ _ (hinv.len_nlc ▸ hN),
    vecResize_set _ _ _ _ (hinv.len_comms ▸ hN), vecResize_set _ _ _ _ (hinv.len_ltask ▸ hN),
    vecResize_set _ _ _ _ (hinv.len_nloc ▸ hN), vecResize_set _ _ _ _ (hinv.len_names ▸ hN),
    hinv.comms, hinv.names, hinv.ltask, hinv.nloc, hinv.nlc, hierarchyOf]

/-- The function returns, with no out-of-bounds access, the hierarchy of
`breakIndex NProcs` split levels followed by the world level. -/
theorem MPIAllocateComms_eq (T r : Nat) :
    MPIAllocateComms T r = some (hierarchyOf T r (breakIndex T)) := by
  obtain ⟨s', hloop, hnum, hinv⟩ :=
    allocLoop_spec T r (floorLog2 T + 1) (breakIndex_lt T) (breakIndex T) 0
      ((allocInit T).numcoms + 1) (allocInit T) (by omega)
      (by have := breakIndex_lt T; simp [allocInit]; omega) (allocInit_inv T r)
  simp only [MPIAllocateComms, hloop, Option.bind_eq_bind, Option.some_bind]
  exact allocFinish_spec T r _ s' (breakIndex_lt T) hnum hinv

/-! ## Group sizes -/

theorem MPI_Comm_size_levelComm (T r i : Nat) :
    MPI_Comm_size T (levelComm T r i) = groupSize T (groupCount T i) (r % groupCount T i) :=
  rfl

theorem commMembers_levelComm (T r i : Nat) :
    commMembers T (levelComm T r i) = groupOf T (groupCount T i) r :=
  rfl

/-- The residue class of `c` modulo `g` below `T` has `T / g` members, and one more
when `c < T mod g`. -/
theorem groupSize_eq (T g c : Nat) (hg : 0 < g) (hc : c < g) :
    groupSize T g c = T / g + if c < T % g then 1 else 0 := by
  have h := Nat.count_modEq_card (b := T) hg c
  rw [Nat.mod_eq_of_lt hc] at h
  rw [← h, Nat.count, List.countP_eq_length_filter, groupSize]
  congr 1
  apply List.filter_congr
  intro x _
  simp [Nat.ModEq, Nat.mod_eq_of_lt hc]

theorem groupSize_ge (T g c : Nat) (hg : 0 < g) (hc : c < g) : T / g ≤ groupSize T g c := by
  rw [groupSize_eq T g c hg hc]; omega

theorem groupSize_le (T g c : Nat) (hg : 0 < g) (hc : c < g) :
    groupSize T g c ≤ T / g + 1 := by
  rw [groupSize_eq T g c hg hc]; split <;> omega

theorem groupCount_two_mul_le (T a b : Nat) (h : a < b) :
    2 * groupCount T b ≤ groupCount T a := by
  unfold groupCount
  have h1 : T / 2 ^ (b + 1) ≤ T / 2 ^ (a + 2) :=
    Nat.div_le_div_left (Nat.pow_le_pow_right (by decide) (by omega)) (by positivity)
  have h2 : T / 2 ^ (a + 2) = T / 2 ^ (a + 1) / 2 := by
    rw [Nat.div_div_eq_div_mul]; rfl
  omega

theorem two_le_div_groupCount (T a : Nat) (h : 2 ≤ groupCount T a) :
    2 ≤ T / groupCount T a := by
  rw [Nat.le_div_iff_mul_le (by omega)]
  have h1 : groupCount T a * 2 ^ (a + 1) ≤ T := Nat.div_mul_le_self T (2 ^ (a + 1))
  have h2 : 2 ≤ 2 ^ (a + 1) := by
    calc 2 = 2 ^ 1 := rfl
      _ ≤ 2 ^ (a + 1) := Nat.pow_le_pow_right (by decide) (by omega)
  calc 2 * groupCount T a = groupCount T a * 2 := by ring
    _ ≤ groupCount T a * 2 ^ (a + 1) := Nat.mul_le_mul_left _ h2
    _ ≤ T := h1

/-- Every residue class at a split level has at least two members. -/
theorem two_le_groupSize (T a c : Nat) (h : 2 ≤ groupCount T a) (hc : c < groupCount T a) :
    2 ≤ groupSize T (groupCount T a) c :=
  le_trans (two_le_div_groupCount T a h) (groupSize_ge T _ c (by omega) hc)

/-- The group of a rank at a split level is strictly smaller than its group at any later
split level. -/
theorem groupSize_lt_of_lt (T r a b : Nat) (hab : a < b) (hb : 2 ≤ groupCount T b) :
    groupSize T (groupCount T a) (r % groupCount T a)
      < groupSize T (groupCount T b) (r % groupCount T b) := by
  have h2 := groupCount_two_mul_le T a b hab
  have ha : 2 ≤ groupCount T a := by omega
  have hqa := two_le_div_groupCount T a ha
  have hup := groupSize_le T (groupCount T a) (r % groupCount T a) (by omega)
    (Nat.mod_lt _ (by omega))
  have hlo := groupSize_ge T (groupCount T b) (r % groupCount T b) (by omega)
    (Nat.mod_lt _ (by omega))
  have hdiv : 2 * (T / groupCount T a) ≤ T / groupCount T b := by
    rw [Nat.le_div_iff_mul_le (by omega)]
    calc 2 * (T / groupCount T a) * groupCount T b
        = (T / groupCount T a) * (2 * groupCount T b) := by ring
      _ ≤ (T / groupCount T a) * groupCount T a := Nat.mul_le_mul_left _ h2
      _ ≤ T := Nat.div_mul_le_self T _
  omega

/-- The group of a rank at a split level is strictly smaller than the whole job. -/
theorem groupSize_lt_total (T r a : Nat) (ha : 2 ≤ groupCount T a) :
    groupSize T (groupCount T a) (r % groupCount T a) < T := by
  have hup := groupSize_le T (groupCount T a) (r % groupCount T a) (by omega)
    (Nat.mod_lt _ (by omega))
  have hq : T / groupCount T a ≤ T / 2 := Nat.div_le_div_left ha (by decide)
  have hT := two_le_div_groupCount T a ha
  omega

theorem pairwise_lt_levelSizes (T r K : Nat) (hK : ∀ j, j < K → 2 ≤ groupCount T j) :
    ((List.range K).map (fun j => groupSize T (groupCount T j) (r % groupCount T j))
      ++ [T]).Pairwise (· < ·) := by
  rw [List.pairwise_append]
  refine ⟨?_, List.pairwise_singleton _ _, ?_⟩
  · rw [List.pairwise_map]
    refine (List.pairwise_lt_range K).imp_of_mem ?_
    intro a b _ hbm hab
    exact groupSize_lt_of_lt T r a b hab (hK b (List.mem_range.mp hbm))
  · intro x hx y hy
    obtain ⟨j, hj, rfl⟩ := List.mem_map.mp hx
    rw [List.mem_singleton] at hy
    rw [hy]
    exact groupSize_lt_total T r j (hK j (List.mem_range.mp hj))

/-! ## Reading the returned hierarchy -/

theorem getElem?_map_range_append {α : Type} (f : Nat → α) (x : α) (K i : Nat) (h : i < K) :
    ((List.range K).map f ++ [x])[i]? = some (f i) := by
  rw [List.getElem?_append_left (by simpa using h)]
  simp [h]

theorem getElem?_map_range_append_last {α : Type} (f : Nat → α) (x : α) (K : Nat) :
    ((List.range K).map f ++ [x])[K]? = some x := by
  rw [List.getElem?_append_right (by simp)]
  simp

theorem numcoms_eq_max (T : Nat) : breakIndex T + 1 = max (Nat.log 2 T) 1 := by
  unfold breakIndex
  rw [floorLog2_eq_log]
  omega

/-- For a power of two the split counts are the powers of two below it. -/
theorem groupCount_two_pow (k i : Nat) (h : i + 1 ≤ k) :
    groupCount (2 ^ k) i = 2 ^ (k - (i + 1)) := by
  unfold groupCount
  exact Nat.pow_div h (by decide)

theorem groupCount_dvd_of_two_pow (k i : Nat) (h : 2 ≤ groupCount (2 ^ k) (i + 1)) :
    groupCount (2 ^ k) (i + 1) ∣ groupCount (2 ^ k) i := by
  have hk : i + 2 ≤ k := by
    by_contra hcon
    have hlt : 2 ^ k < 2 ^ (i + 1 + 1) := Nat.pow_lt_pow_right (by decide) (by omega)
    have : groupCount (2 ^ k) (i + 1) = 0 := Nat.div_eq_of_lt hlt
    omega
  rw [groupCount_two_pow k (i + 1) hk, groupCount_two_pow k i (by omega)]
  exact Nat.pow_dvd_pow 2 (by omega)

theorem groupOf_subset_of_dvd (T g g' r : Nat) (h : g' ∣ g) :
    groupOf T g r ⊆ groupOf T g' r := by
  intro x hx
  simp only [groupOf, List.mem_filter, List.mem_range, decide_eq_true_eq] at hx ⊢
  exact ⟨hx.1, Nat.ModEq.of_dvd h hx.2⟩

theorem groupOf_subset_range (T g r : Nat) : groupOf T g r ⊆ List.range T := by
  intro x hx
  exact (List.mem_filter.mp hx).1

/-! ## The hierarchy built by `MPIAllocateComms` -/

/-- C1: for every process count `T ≥ 2` and rank `r < T`, `MPIAllocateComms` returns a
hierarchy whose split levels `i` all have `floor(T / 2^(i+1)) ≥ 2`, whose group sizes are
the sizes of the residue classes of `r` modulo `floor(T / 2^(i+1))` followed by `T`, and
these group sizes are strictly increasing along the levels. -/
theorem C1_group_sizes_strictly_increasing :
    ∀ T r : Nat, 2 ≤ T → r < T →
      ∃ h, MPIAllocateComms T r = some h ∧
        (∀ i, i < h.numcoms - 1 → 2 ≤ T / 2 ^ (i + 1)) ∧
        h.NProcsLocal =
          (List.range (h.numcoms - 1)).map
            (fun i => (groupOf T (T / 2 ^ (i + 1)) r).length) ++ [T] ∧
        h.NProcsLocal.Pairwise (· < ·) := by
  intro T r _ _
  refine ⟨_, MPIAllocateComms_eq T r, ?_, rfl, ?_⟩
  · intro i hi
    exact groupCount_ge_two T i (by simpa [hierarchyOf] using hi)
  · exact pairwise_lt_levelSizes T r (breakIndex T) (groupCount_ge_two T)

theorem C1_group_sizes_strictly_increasing_witness :
    (2 ≤ 11 ∧ 1 < 11) ∧
      ∃ h, MPIAllocateComms 11 1 = some h ∧ h.NProcsLocal.Pairwise (· < ·) :=
  ⟨by decide,
    (C1_group_sizes_strictly_increasing 11 1 (by decide) (by decide)).imp
      (fun _ hh => ⟨hh.1, hh.2.2.2⟩)⟩

/-- C2 (failing input): with 5 processes, rank 0 is put at level 0 in the group
`{0, 2, 4}` of 3 members, which is not a power of two, while the level is labelled
`Tag_2`. -/
theorem C2_group_size_not_power_of_two_at_five :
    (MPIAllocateComms 5 0).map
        (fun h => (h.mpi_comms.map (commMembers 5), h.NProcsLocal, h.mpi_comms_name))
      = some ([[0, 2, 4], [0, 1, 2, 3, 4]], [3, 5], ["Tag_2_worldrank_0", "Tag_world"]) ∧
    ¬ ∃ k : Nat, 3 = 2 ^ k := by
  refine ⟨by decide, ?_⟩
  rintro ⟨k, hk⟩
  match k with
  | 0 => simp at hk
  | 1 => simp at hk
  | k + 2 =>
    rw [pow_succ, pow_succ] at hk
    omega

/-- C3 (counterexample): it is false that for every power of two `T = 2^k` the returned
number of levels is `log2(T) + 1`: for `T = 2` the function returns one level. -/
theorem C3_numcoms_counterexample :
    ¬ ∀ k r : Nat, r < 2 ^ k →
      (MPIAllocateComms (2 ^ k) r).map (fun h => h.numcoms) = some (Nat.log 2 (2 ^ k) + 1) := by
  intro h
  have h1 := h 1 0 (by decide)
  rw [Nat.log_pow (by decide)] at h1
  revert h1
  decide

/-- C3 (amended): for every power of two `T = 2^k` the returned number of levels is
`log2(T) = k` when `T ≥ 2`, and 1 when `T = 1`. -/
theorem C3_numcoms_power_of_two :
    ∀ k r : Nat, r < 2 ^ k →
      ∃ h, MPIAllocateComms (2 ^ k) r = some h ∧ h.numcoms = max k 1 ∧
        k = Nat.log 2 (2 ^ k) := by
  intro k r _
  refine ⟨_, MPIAllocateComms_eq (2 ^ k) r, ?_, (Nat.log_pow (by decide) k).symm⟩
  show breakIndex (2 ^ k) + 1 = max k 1
  rw [numcoms_eq_max, Nat.log_pow (by decide)]

theorem C3_numcoms_power_of_two_witness :
    3 < 2 ^ 3 ∧ ∃ h, MPIAllocateComms (2 ^ 3) 3 = some h ∧ h.numcoms = max 3 1 ∧
      3 = Nat.log 2 (2 ^ 3) :=
  ⟨by decide, C3_numcoms_power_of_two 3 3 (by decide)⟩

/-- C4 (counterexample): with 10 processes the hierarchy of rank 0 has three levels and
its level-0 group `{0, 5}` is not contained in its level-1 group `{0, 2, 4, 6, 8}`. -/
theorem C4_nested_counterexample :
    ∃ h ci cj, MPIAllocateComms 10 0 = some h ∧ 0 < h.numcoms - 1 ∧
      h.mpi_comms[0]? = some ci ∧ h.mpi_comms[0 + 1]? = some cj ∧
      ¬ commMembers 10 ci ⊆ commMembers 10 cj := by
  refine ⟨hierarchyOf 10 0 (breakIndex 10), .SPLIT [0, 5], .SPLIT [0, 2, 4, 6, 8],
    MPIAllocateComms_eq 10 0, by decide, by decide, by decide, ?_⟩
  intro hsub
  have h5 : (5 : Nat) ∈ commMembers 10 (.SPLIT [0, 2, 4, 6, 8]) := hsub (by decide)
  revert h5
  decide

/-- C4 (amended): for every process count `T`, rank `r < T` and level `i < L-1`, the
group of `r` at level `i` is contained in its group at level `i+1` whenever level `i+1`
is the last level, or `floor(T / 2^(i+2))` divides `floor(T / 2^(i+1))`, or `T` is a power
of two. -/
theorem C4_nested_when_divisible :
    ∀ T r : Nat, r < T →
      ∃ h, MPIAllocateComms T r = some h ∧
        ∀ i, i < h.numcoms - 1 →
          (i + 2 = h.numcoms ∨ T / 2 ^ (i + 2) ∣ T / 2 ^ (i + 1) ∨ ∃ k, T = 2 ^ k) →
          ∃ ci cj, h.mpi_comms[i]? = some ci ∧ h.mpi_comms[i + 1]? = some cj ∧
            commMembers T ci = groupOf T (T / 2 ^ (i + 1)) r ∧
            commMembers T ci ⊆ commMembers T cj := by
  intro T r _
  refine ⟨_, MPIAllocateComms_eq T r, ?_⟩
  intro i hi hcase
  have hiK : i < breakIndex T := by simpa [hierarchyOf] using hi
  have hci : (hierarchyOf T r (breakIndex T)).mpi_comms[i]? = some (levelComm T r i) :=
    getElem?_map_range_append _ _ _ _ hiK
  by_cases hlast : i + 1 = breakIndex T
  · refine ⟨levelComm T r i, .COMM_WORLD, hci, ?_, rfl, ?_⟩
    · rw [hlast]
      exact getElem?_map_range_append_last _ _ _
    · exact groupOf_subset_range T _ r
  · have hi1 : i + 1 < breakIndex T := by omega
    have hdvd : groupCount T (i + 1) ∣ groupCount T i := by
      rcases hcase with hl | hd | ⟨k, rfl⟩
      · simp [hierarchyOf] at hl
        omega
      · exact hd
      · exact groupCount_dvd_of_two_pow k i (groupCount_ge_two _ _ hi1)
    refine ⟨levelComm T r i, levelComm T r (i + 1), hci,
      getElem?_map_range_append _ _ _ _ hi1, rfl, ?_⟩
    exact groupOf_subset_of_dvd T _ _ r hdvd

theorem C4_nested_when_divisible_witness :
    3 < 12 ∧ ∃ h, MPIAllocateComms 12 3 = some h ∧
        ∀ i, i < h.numcoms - 1 →
          (i + 2 = h.numcoms ∨ 12 / 2 ^ (i + 2) ∣ 12 / 2 ^ (i + 1) ∨ ∃ k, 12 = 2 ^ k) →
          ∃ ci cj, h.mpi_comms[i]? = some ci ∧ h.mpi_comms[i + 1]? = some cj ∧
            commMembers 12 ci = groupOf 12 (12 / 2 ^ (i + 1)) 3 ∧
            commMembers 12 ci ⊆ commMembers 12 cj :=
  ⟨by decide, C4_nested_when_divisible 12 3 (by decide)⟩

/-- C5: for every process count `T ≥ 1` and rank `r < T`, `MPIAllocateComms` returns
`numcoms ≥ 1` levels, each of the five returned vectors has length `numcoms`, and at index
`numcoms - 1` the communicator is the world communicator, of size `T`, the group size is
`T` and the local rank is the world rank `r`. -/
theorem C5_last_level_is_world :
    ∀ T r : Nat, 1 ≤ T → r < T →
      ∃ h, MPIAllocateComms T r = some h ∧ 1 ≤ h.numcoms ∧
        h.mpi_comms.length = h.numcoms ∧ h.mpi_comms_name.length = h.numcoms ∧
        h.ThisLocalTask.length = h.numcoms ∧ h.NProcsLocal.length = h.numcoms ∧
        h.NLocalComms.length = h.numcoms ∧
        h.mpi_comms[h.numcoms - 1]? = some .COMM_WORLD ∧
        MPI_Comm_size T .COMM_WORLD = T ∧
        h.NProcsLocal[h.numcoms - 1]? = some T ∧
        h.ThisLocalTask[h.numcoms - 1]? = some r := by
  intro T r _ _
  refine ⟨_, MPIAllocateComms_eq T r, ?_, ?_, ?_, ?_, ?_, ?_, ?_, ?_, ?_, ?_⟩
  · simp [hierarchyOf]
  · simp [hierarchyOf]
  · simp [hierarchyOf]
  · simp [hierarchyOf]
  · simp [hierarchyOf]
  · simp [hierarchyOf]
  · exact getElem?_map_range_append_last _ _ _
  · simp [MPI_Comm_size, commMembers]
  · exact getElem?_map_range_append_last _ _ _
  · exact getElem?_map_range_append_last _ _ _

theorem C5_last_level_is_world_witness :
    (1 ≤ 6 ∧ 4 < 6) ∧
      ∃ h, MPIAllocateComms 6 4 = some h ∧ h.mpi_comms.length = h.numcoms ∧
        h.mpi_comms[h.numcoms - 1]? = some .COMM_WORLD ∧
        h.NProcsLocal[h.numcoms - 1]? = some 6 ∧
        h.ThisLocalTask[h.numcoms - 1]? = some 4 :=
  ⟨by decide,
    (C5_last_level_is_world 6 4 (by decide) (by decide)).imp
      (fun _ hh => ⟨hh.1, hh.2.2.1, hh.2.2.2.2.2.2.2.1, hh.2.2.2.2.2.2.2.2.2.1,
        hh.2.2.2.2.2.2.2.2.2.2⟩)⟩

/-- C6: for every process count `T ≥ 2` and rank `r < T`, every group size returned by
`MPIAllocateComms` is at least 2, and at every split level `i` (where
`floor(T / 2^(i+1)) ≥ 2`) every residue class modulo `floor(T / 2^(i+1))` has at least two
ranks below `T`. -/
theorem C6_no_group_below_two :
    ∀ T r : Nat, 2 ≤ T → r < T →
      ∃ h, MPIAllocateComms T r = some h ∧
        (∀ n ∈ h.NProcsLocal, 2 ≤ n) ∧
        h.NProcsLocal.getLast? = some T ∧
        ∀ i, i < h.numcoms - 1 →
          2 ≤ T / 2 ^ (i + 1) ∧
          ∀ c, c < T / 2 ^ (i + 1) → 2 ≤ groupSize T (T / 2 ^ (i + 1)) c := by
  intro T r hT _
  refine ⟨_, MPIAllocateComms_eq T r, ?_, ?_, ?_⟩
  · intro n hn
    simp only [hierarchyOf, List.mem_append, List.mem_map, List.mem_range,
      List.mem_singleton] at hn
    rcases hn with ⟨j, hj, rfl⟩ | rfl
    · exact two_le_groupSize T j _ (groupCount_ge_two T j hj)
        (Nat.mod_lt _ (by have := groupCount_ge_two T j hj; omega))
    · exact hT
  · simp [hierarchyOf]
  · intro i hi
    have hg : 2 ≤ groupCount T i := groupCount_ge_two T i (by simpa [hierarchyOf] using hi)
    exact ⟨hg, fun c hc => two_le_groupSize T i c hg hc⟩

theorem C6_no_group_below_two_witness :
    (2 ≤ 7 ∧ 2 < 7) ∧ ∃ h, MPIAllocateComms 7 2 = some h ∧ ∀ n ∈ h.NProcsLocal, 2 ≤ n :=
  ⟨by decide,
    (C6_no_group_below_two 7 2 (by decide) (by decide)).imp (fun _ hh => ⟨hh.1, hh.2.1⟩)⟩

/-! ## TimeStats -/

section Stats

variable {α : Type} [LinearOrderedField α]

/-- The loop of `TimeStats` accumulates the sum, the sum of squares, the running minimum
and the running maximum. -/
theorem foldl_statsStep (l : List α) : ∀ acc : StatsAcc α,
    l.foldl statsStep acc =
      { ave := acc.ave + l.sum
        std := acc.std + (l.map (fun t => t * t)).sum
        mint := l.foldl min acc.mint
        maxt := l.foldl max acc.maxt } := by
  induction l with
  | nil => intro acc; simp
  | cons t l ih =>
    intro acc
    simp [List.foldl_cons, ih, statsStep, add_assoc]

theorem TimeStats_cons (sqrt : α → α) (t0 : α) (rest : List α) :
    TimeStats sqrt (t0 :: rest) =
      some ((t0 :: rest).sum / ((t0 :: rest).length : α),
        (if ((t0 :: rest).length : α) > 1 then
          sqrt ((((t0 :: rest).map (fun t => t * t)).sum
            - (t0 :: rest).sum / ((t0 :: rest).length : α)
              * ((t0 :: rest).sum / ((t0 :: rest).length : α)) * ((t0 :: rest).length : α))
            / (((t0 :: rest).length : α) - 1))
        else 0),
        (t0 :: rest).foldl min t0, (t0 :: rest).foldl max t0) := by
  simp only [TimeStats, foldl_statsStep, zero_add]

end Stats

/-! ## MPISetSize -/

theorem setSizeLoop_four (a b c d : Nat) :
    setSizeLoop [a, b, c, d] = [a, a / 8, a / 8 / 8, a / 8 / 8 / 8] := by
  simp [setSizeLoop, List.range']

theorem insertionSort_descending_four (a b c d : Nat) (h1 : b ≤ a) (h2 : c ≤ b)
    (h3 : d ≤ c) : [a, b, c, d].insertionSort (· ≤ ·) = [d, c, b, a] := by
  apply List.eq_of_perm_of_sorted (r := (· ≤ ·))
  · exact (List.perm_insertionSort _ _).trans (List.reverse_perm [a, b, c, d]).symm
  · exact List.sorted_insertionSort _ _
  · simp only [List.Sorted, List.pairwise_cons, List.mem_cons, List.mem_singleton]
    simp
    omega

theorem MPISetSize_eq (maxgb : ℚ) (h0 : -1 < 1024 * 1024 * 1024 * maxgb / 8)
    (h1 : 1024 * 1024 * 1024 * maxgb / 8 < 2 ^ 64) :
    MPISetSize maxgb =
      some [⌊1024 * 1024 * 1024 * maxgb / 8⌋₊ / 8 / 8 / 8,
        ⌊1024 * 1024 * 1024 * maxgb / 8⌋₊ / 8 / 8,
        ⌊1024 * 1024 * 1024 * maxgb / 8⌋₊ / 8, ⌊1024 * 1024 * 1024 * maxgb / 8⌋₊] := by
  have hrep : (List.replicate 4 (0 : Nat)).set 0 ⌊1024 * 1024 * 1024 * maxgb / 8⌋₊
      = [⌊1024 * 1024 * 1024 * maxgb / 8⌋₊, 0, 0, 0] := rfl
  simp only [MPISetSize, if_pos (And.intro h0 h1), hrep, setSizeLoop_four]
  rw [insertionSort_descending_four _ _ _ _ (Nat.div_le_self _ _) (Nat.div_le_self _ _)
    (Nat.div_le_self _ _)]

theorem MPISetSize_eq_none (maxgb : ℚ) (h : (2 : ℚ) ^ 64 ≤ 1024 * 1024 * 1024 * maxgb / 8) :
    MPISetSize maxgb = none := by
  simp only [MPISetSize]
  rw [if_neg]
  intro hc
  exact absurd hc.2 (not_lt.mpr h)

/-- C10 (counterexample): for the byte budget `2^67` (`maxgb = 2^37`) the claimed first
size is `s0 = floor(2^67 / 8) = 2^64`, which is not a value of `unsigned long long`: the
conversion of the source is undefined there, and `MPISetSize` does not return the claimed
list `[2^55, 2^58, 2^61, 2^64]`. -/
theorem C10_budget_out_of_range_counterexample :
    ⌊(2 ^ 30 * 2 ^ 37 / 8 : ℚ)⌋₊ = 2 ^ 64 ∧
    MPISetSize (2 ^ 37) = none ∧
    MPISetSize (2 ^ 37) ≠ some [2 ^ 64 / 8 / 8 / 8, 2 ^ 64 / 8 / 8, 2 ^ 64 / 8, 2 ^ 64] := by
  have hnone : MPISetSize (2 ^ 37) = none := MPISetSize_eq_none _ (by norm_num)
  refine ⟨?_, hnone, ?_⟩
  · have : (2 ^ 30 * 2 ^ 37 / 8 : ℚ) = ((2 ^ 64 : ℕ) : ℚ) := by norm_num
    rw [this, Nat.floor_natCast]
  · rw [hnone]
    exact fun h => by cases h

/-- C10 (amended): for every byte budget `2^30 * maxgb ≥ 0` whose eighth is below `2^64`,
with `s0 = floor(2^30 * maxgb / 8)`, `MPISetSize` returns exactly
`[((s0/8)/8)/8, (s0/8)/8, s0/8, s0]`, which is sorted ascending and whose members are
below `2^64`; for the default `maxgb = 1` this is `[2^18, 2^21, 2^24, 2^27]`. -/
theorem C10_MPISetSize_sizes_in_range :
    (∀ maxgb : ℚ, 0 ≤ maxgb → 2 ^ 30 * maxgb / 8 < 2 ^ 64 →
      MPISetSize maxgb =
        some [⌊2 ^ 30 * maxgb / 8⌋₊ / 8 / 8 / 8, ⌊2 ^ 30 * maxgb / 8⌋₊ / 8 / 8,
          ⌊2 ^ 30 * maxgb / 8⌋₊ / 8, ⌊2 ^ 30 * maxgb / 8⌋₊] ∧
      List.Sorted (· ≤ ·)
        [⌊2 ^ 30 * maxgb / 8⌋₊ / 8 / 8 / 8, ⌊2 ^ 30 * maxgb / 8⌋₊ / 8 / 8,
          ⌊2 ^ 30 * maxgb / 8⌋₊ / 8, ⌊2 ^ 30 * maxgb / 8⌋₊] ∧
      ⌊2 ^ 30 * maxgb / 8⌋₊ < 2 ^ 64) ∧
    MPISetSize 1 = some [2 ^ 18, 2 ^ 21, 2 ^ 24, 2 ^ 27] := by
  have h30 : ∀ q : ℚ, 1024 * 1024 * 1024 * q = 2 ^ 30 * q := by
    intro q; norm_num
  refine ⟨fun maxgb h0 h1 => ⟨?_, ?_, ?_⟩, ?_⟩
  · have hx0 : (0 : ℚ) ≤ 2 ^ 30 * maxgb / 8 := by positivity
    rw [MPISetSize_eq maxgb (by rw [h30]; linarith) (by rw [h30]; exact h1), h30]
  · have h := List.sorted_insertionSort (· ≤ ·)
      [⌊2 ^ 30 * maxgb / 8⌋₊, ⌊2 ^ 30 * maxgb / 8⌋₊ / 8, ⌊2 ^ 30 * maxgb / 8⌋₊ / 8 / 8,
        ⌊2 ^ 30 * maxgb / 8⌋₊ / 8 / 8 / 8]
    rwa [insertionSort_descending_four _ _ _ _ (Nat.div_le_self _ _) (Nat.div_le_self _ _)
      (Nat.div_le_self _ _)] at h
  · have hx0 : (0 : ℚ) ≤ 2 ^ 30 * maxgb / 8 := by positivity
    have h := (Nat.floor_lt hx0).mpr (by exact_mod_cast h1 : 2 ^ 30 * maxgb / 8 < ((2 ^ 64 : ℕ) : ℚ))
    exact h
  · rw [MPISetSize_eq 1 (by norm_num) (by norm_num)]
    have h27 : ⌊(1024 * 1024 * 1024 * 1 / 8 : ℚ)⌋₊ = 2 ^ 27 := by
      have : (1024 * 1024 * 1024 * 1 / 8 : ℚ) = ((2 ^ 27 : ℕ) : ℚ) := by norm_num
      rw [this, Nat.floor_natCast]
    rw [h27]
    norm_num

theorem C10_MPISetSize_sizes_in_range_witness :
    ((0 : ℚ) ≤ 1 ∧ (2 ^ 30 * 1 / 8 : ℚ) < 2 ^ 64) ∧
      MPISetSize 1 =
        some [⌊(2 ^ 30 * 1 / 8 : ℚ)⌋₊ / 8 / 8 / 8, ⌊(2 ^ 30 * 1 / 8 : ℚ)⌋₊ / 8 / 8,
          ⌊(2 ^ 30 * 1 / 8 : ℚ)⌋₊ / 8, ⌊(2 ^ 30 * 1 / 8 : ℚ)⌋₊] :=
  ⟨⟨by norm_num, by norm_num⟩,
    (C10_MPISetSize_sizes_in_range.1 1 (by norm_num) (by norm_num)).1⟩

/-! ## Message tags -/

/-- The exact tag `d*N + s` with `s < N` determines the pair `(s, d)`. -/
theorem sendTag_injective (N s d s' d' : Nat) (hs : s < N) (hs' : s' < N)
    (h : sendTag N s d = sendTag N s' d') : s = s' ∧ d = d' := by
  unfold sendTag at h
  have hd : d = d' := by
    rcases Nat.lt_trichotomy d d' with h1 | h1 | h1
    · have h2 : (d + 1) * N ≤ d' * N := Nat.mul_le_mul_right N h1
      rw [Nat.succ_mul] at h2
      omega
    · exact h1
    · have h2 : (d' + 1) * N ≤ d * N := Nat.mul_le_mul_right N h1
      rw [Nat.succ_mul] at h2
      omega
  subst hd
  exact ⟨by omega, rfl⟩

/-- The sender `s` and the receiver `d` of a message compute the same `int` tag. -/
theorem sendTagInt_eq_recvTagInt (N s d : Nat) : sendTagInt N s d = recvTagInt N d s := rfl

theorem wrapInt32_of_lt (x : Int) (h0 : 0 ≤ x) (h1 : x < 2 ^ 31) : wrapInt32 x = x := by
  unfold wrapInt32
  norm_num at h1 ⊢
  omega

/-- In a group of `N` members with `N * N ≤ 2^31` no operation of the tag overflows: the
`int` holds the exact value. -/
theorem sendTagInt_eq (N s d : Nat) (hN : N * N ≤ 2 ^ 31) (hs : s < N) (hd : d < N) :
    sendTagInt N s d = ((sendTag N s d : Nat) : Int) := by
  have h1 : (d + 1) * N ≤ N * N := Nat.mul_le_mul_right N hd
  rw [Nat.succ_mul] at h1
  have hprod : d * N < 2 ^ 31 := by omega
  have hsum : d * N + s < 2 ^ 31 := by omega
  unfold sendTagInt sendTag
  rw [wrapInt32_of_lt ((d : Int) * (N : Int)) (by positivity) (by exact_mod_cast hprod),
    wrapInt32_of_lt ((d : Int) * (N : Int) + (s : Int)) (by positivity)
      (by exact_mod_cast hsum)]
  push_cast
  rfl

/-- C12 (counterexample): in a group of `N = 65537` members the message from the local
rank 0 to the local rank 65536 and the message from the local rank 65536 to the local
rank 0 get the same `int` tag 65536, although the exact values `65536 * 65537` and `65536`
differ: the product overflows the 32-bit `int`. -/
theorem C12_tag_collision_counterexample :
    (0 < 65537 ∧ 65536 < 65537) ∧
    sendTagInt 65537 0 65536 = sendTagInt 65537 65536 0 ∧
    sendTagInt 65537 0 65536 = 65536 ∧
    sendTag 65537 0 65536 ≠ sendTag 65537 65536 0 ∧
    ¬ ((0 : Nat) = 65536 ∧ (65536 : Nat) = 0) := by
  refine ⟨by decide, ?_, ?_, ?_, ?_⟩
  · unfold sendTagInt wrapInt32; norm_num
  · unfold sendTagInt wrapInt32; norm_num
  · unfold sendTag; norm_num
  · norm_num

/-- C12 (amended): in a group of `N ≥ 1` members with `N * N ≤ 2^31` (that is `N ≤ 46340`)
the `int` tag of the message from the local rank `s` to the local rank `d` is the exact
value `d*N + s`, and it determines the ordered pair: equal tags for `s, d, s', d' < N`
force `s = s'` and `d = d'`. -/
theorem C12_tag_unique_within_int :
    ∀ N s d s' d' : Nat, 1 ≤ N → N * N ≤ 2 ^ 31 → s < N → d < N → s' < N → d' < N →
      sendTagInt N s d = ((d * N + s : Nat) : Int) ∧
      (sendTagInt N s d = sendTagInt N s' d' → s = s' ∧ d = d') := by
  intro N s d s' d' _ hN hs hd hs' hd'
  refine ⟨sendTagInt_eq N s d hN hs hd, ?_⟩
  intro h
  rw [sendTagInt_eq N s d hN hs hd, sendTagInt_eq N s' d' hN hs' hd'] at h
  exact sendTag_injective N s d s' d' hs hs' (by exact_mod_cast h)

theorem C12_tag_unique_within_int_witness :
    (1 ≤ 3 ∧ 3 * 3 ≤ 2 ^ 31 ∧ 1 < 3 ∧ 2 < 3) ∧
      sendTagInt 3 1 2 = ((2 * 3 + 1 : Nat) : Int) ∧
      (sendTagInt 3 1 2 = sendTagInt 3 1 2 → 1 = 1 ∧ 2 = 2) :=
  ⟨by decide,
    C12_tag_unique_within_int 3 1 2 1 2 (by decide) (by decide) (by decide) (by decide)
      (by decide) (by decide)⟩

/-! ## The host clock of `Timer` -/

/-- C13 (failing input): `set_ref` assigns `t0` and leaves `tref` as the constructor set
it, so `get()` after a `set_ref` at time `t1` still returns the time since creation,
`t2 - tc`; for `tc = 0`, `t1 = 10`, `t2 = 15` it returns 15 and not 5. -/
theorem C13_get_after_set_ref :
    (∀ (f l new_ref : String) (tc t1 t2 : Int) (g : GpuState),
      ((Timer.new f l false tc g).1.set_ref new_ref t1 g).map (fun r => r.1.get t2)
        = some (t2 - tc)) ∧
    ((Timer.new "main" "1" false 0 ⟨0, 0, 0, []⟩).1.set_ref "ref" 10 ⟨0, 0, 0, []⟩).map
        (fun r => r.1.get 15) = some 15 := by
  constructor
  · intro f l new_ref tc t1 t2 g
    simp [Timer.new, Timer.set_ref, Timer.get]
  · simp [Timer.new, Timer.set_ref, Timer.get]

/-- C14 (failing input): `set_ref` overwrites `t0`, the time point that `get_creation()`
measures from, so `get_creation()` after a `set_ref` at time `t1` returns `t2 - t1`; for
`tc = 0`, `t1 = 10`, `t2 = 15` it returns 5 and not 15. -/
theorem C14_get_creation_after_set_ref :
    (∀ (f l new_ref : String) (tc t1 t2 : Int) (g : GpuState),
      ((Timer.new f l false tc g).1.set_ref new_ref t1 g).map (fun r => r.1.get_creation t2)
        = some (t2 - t1)) ∧
    ((Timer.new "main" "1" false 0 ⟨0, 0, 0, []⟩).1.set_ref "ref" 10 ⟨0, 0, 0, []⟩).map
        (fun r => r.1.get_creation 15) = some 5 := by
  constructor
  · intro f l new_ref tc t1 t2 g
    simp [Timer.new, Timer.set_ref, Timer.get_creation]
  · simp [Timer.new, Timer.set_ref, Timer.get_creation]

/-! ## The device side of `Timer` -/

theorem swap_warning_ne_empty (a b : Nat) :
    "WARNING: Device swapped during timing: currently on " ++ toString a
      ++ " but measuring on " ++ toString b ++ " : " ≠ "" := by
  intro h
  have hlen := congrArg String.length h
  simp only [String.length_append] at hlen
  have h1 : (" : " : String).length = 3 := by decide
  have h2 : ("" : String).length = 0 := by decide
  omega

theorem get_device_swap_info_ne_empty (t : Timer) :
    t.get_device_swap_info ≠ "" ↔ t.swap_device = true := by
  unfold Timer.get_device_swap_info
  by_cases h : t.swap_device = true
  · simp only [h, if_true, iff_true]
    exact swap_warning_ne_empty _ _
  · simp [h]

/-- What `get_on_device()` does on a timer with device timing, recorded on the device
`t.device_id`, when the active device is `g.curDevice` and both devices exist. -/
theorem get_on_device_eq (t : Timer) (ms : ℚ) (g : GpuState) (hu : t.use_device = true)
    (h0 : t.device_id < g.ndevices) (h1 : g.curDevice < g.ndevices) :
    t.get_on_device ms g =
      some (ms * (1 / 1000 * 1000000000),
        { t with other_device_id := g.curDevice, swap_device := (g.curDevice != t.device_id) },
        { ndevices := g.ndevices
          curDevice := g.curDevice
          nextEvent := g.nextEvent + 1
          calls := g.calls
            ++ (if g.curDevice ≠ t.device_id then [(.SetDevice t.device_id, g.curDevice)] else [])
            ++ [(.EventCreate g.nextEvent, t.device_id), (.EventRecord g.nextEvent, t.device_id),
                (.EventSynchronize g.nextEvent, t.device_id),
                (.EventElapsedTime t.t0_event g.nextEvent, t.device_id),
                (.EventDestroy g.nextEvent, t.device_id)]
            ++ (if g.curDevice ≠ t.device_id then [(.SetDevice g.curDevice, t.device_id)]
                else []) }) := by
  by_cases hd : g.curDevice = t.device_id
  · simp [Timer.get_on_device, Timer.get_ref_device, Timer.set_cur_device, pu_gpuEventCreate,
      pu_gpuEventRecord, pu_gpuEventSynchronize, pu_gpuEventElapsedTime, pu_gpuEventDestroy,
      logCall, hu, hd]
  · simp [Timer.get_on_device, Timer.get_ref_device, Timer.set_cur_device, pu_gpuSetDevice,
      pu_gpuEventCreate, pu_gpuEventRecord, pu_gpuEventSynchronize, pu_gpuEventElapsedTime,
      pu_gpuEventDestroy, logCall, hu, hd, h0, h1]

/-- C15: for a timer with device timing whose event was recorded on the device `d0`, a
call of `get_on_device()` while the device `d1` is active returns with the swap warning set
(`get_device_swap_info()` non-empty) exactly when `d1 ≠ d0`; a timer created on device 0
and read with device 1 active has the warning set, and a second reading with device 0
active again has it cleared. -/
theorem C15_swap_warning_iff_other_device :
    (∀ (t : Timer) (ms : ℚ) (g : GpuState) (d0 d1 : Nat),
      t.use_device = true → t.device_id = d0 → g.curDevice = d1 →
      d0 < g.ndevices → d1 < g.ndevices →
      ∃ r, t.get_on_device ms g = some r ∧ (r.2.1.get_device_swap_info ≠ "" ↔ d1 ≠ d0)) ∧
    (∀ ms₁ ms₂ : ℚ,
      ∃ r₁ g₁ r₂ g₂,
        pu_gpuSetDevice 1 (Timer.new "main" "1" true 0 ⟨2, 0, 0, []⟩).2 = some g₁ ∧
        (Timer.new "main" "1" true 0 ⟨2, 0, 0, []⟩).1.get_on_device ms₁ g₁ = some r₁ ∧
        r₁.2.1.get_device_swap_info ≠ "" ∧
        pu_gpuSetDevice 0 r₁.2.2 = some g₂ ∧
        r₁.2.1.get_on_device ms₂ g₂ = some r₂ ∧
        r₂.2.1.get_device_swap_info = "") := by
  constructor
  · intro t ms g d0 d1 hu hd0 hd1 h0 h1
    subst hd0 hd1
    refine ⟨_, get_on_device_eq t ms g hu h0 h1, ?_⟩
    rw [get_device_swap_info_ne_empty]
    simp
  · intro ms₁ ms₂
    refine ⟨_, _, _, _, rfl, get_on_device_eq _ ms₁ _ ?_ ?_ ?_, ?_, rfl,
      get_on_device_eq _ ms₂ _ ?_ ?_ ?_, ?_⟩
    · rfl
    · exact (by decide : (0 : Nat) < 2)
    · exact (by decide : (1 : Nat) < 2)
    · rw [get_device_swap_info_ne_empty]
      rfl
    · rfl
    · exact (by decide : (0 : Nat) < 2)
    · exact (by decide : (0 : Nat) < 2)
    · rfl

theorem C15_swap_warning_iff_other_device_witness :
    ∃ r, (Timer.new "main" "1" true 0 ⟨2, 0, 0, []⟩).1.get_on_device 3
          ⟨2, 1, 1, []⟩ = some r ∧
      (r.2.1.get_device_swap_info ≠ "" ↔ 1 ≠ 0) :=
  C15_swap_warning_iff_other_device.1 (Timer.new "main" "1" true 0 ⟨2, 0, 0, []⟩).1 3
    ⟨2, 1, 1, []⟩ 0 1 rfl rfl rfl (by decide) (by decide)

/-- C16: for a timer with device timing whose event was recorded on the device `d0`, a
call of `get_on_device()` while the device `d1` is active makes its event calls, the
reading of the elapsed time included, with `d0` active, and returns with `d1` active. -/
theorem C16_get_on_device_reads_on_recording_device :
    ∀ (t : Timer) (ms : ℚ) (g : GpuState) (d0 d1 : Nat),
      t.use_device = true → t.device_id = d0 → g.curDevice = d1 →
      d0 < g.ndevices → d1 < g.ndevices →
      ∃ telapsed t' g', t.get_on_device ms g = some (telapsed, t', g') ∧
        g'.curDevice = d1 ∧
        g'.calls = g.calls
          ++ (if d1 ≠ d0 then [(GpuCall.SetDevice d0, d1)] else [])
          ++ [(.EventCreate g.nextEvent, d0), (.EventRecord g.nextEvent, d0),
              (.EventSynchronize g.nextEvent, d0),
              (.EventElapsedTime t.t0_event g.nextEvent, d0),
              (.EventDestroy g.nextEvent, d0)]
          ++ (if d1 ≠ d0 then [(GpuCall.SetDevice d1, d0)] else []) := by
  intro t ms g d0 d1 hu hd0 hd1 h0 h1
  subst hd0 hd1
  exact ⟨_, _, _, get_on_device_eq t ms g hu h0 h1, rfl, rfl⟩

theorem C16_get_on_device_reads_on_recording_device_witness :
    ∃ telapsed t' g',
      (Timer.new "main" "1" true 0 ⟨2, 0, 0, []⟩).1.get_on_device 3 ⟨2, 1, 1, []⟩
        = some (telapsed, t', g') ∧ g'.curDevice = 1 :=
  (C16_get_on_device_reads_on_recording_device
    (Timer.new "main" "1" true 0 ⟨2, 0, 0, []⟩).1 3 ⟨2, 1, 1, []⟩ 0 1 rfl rfl rfl
    (by decide) (by decide)).imp
    (fun _ h => h.imp (fun _ h => h.imp (fun _ h => ⟨h.1, h.2.1⟩)))

/-- C17 (failing input): a timer recorded on device 0 whose `set_ref` is called while
device 1 is active first makes device 0 active to destroy the old event and then reads
the active device, so its recording device stays 0 (not 1), the new event is created on
device 0 and the process is left on device 0; the swap warning is cleared. -/
theorem C17_set_ref_keeps_old_device :
    ∃ g t' g',
      pu_gpuSetDevice 1 (Timer.new "main" "1" true 0 ⟨2, 0, 0, []⟩).2 = some g ∧
      g.curDevice = 1 ∧
      (Timer.new "main" "1" true 0 ⟨2, 0, 0, []⟩).1.set_ref "ref" 10 g = some (t', g') ∧
      t'.device_id = 0 ∧ g'.curDevice = 0 ∧ t'.swap_device = false ∧
      (GpuCall.EventCreate t'.t0_event, 0) ∈ g'.calls := by
  refine ⟨_, _, _, rfl, rfl, rfl, rfl, rfl, rfl, ?_⟩
  decide

/-- C18 (failing input): on a process with one device, one iteration of the timing loop
creates the event 0 once and destroys it twice (once by the copy that
`MPIGatherTimeStats` receives by value, once by `time2`); and after `t1 = NewTimer()`
the first event of `t1` is never destroyed while the second is destroyed twice. -/
theorem C18_event_destroyed_twice :
    (@allReduceIteration ℚ _ 4 0 0 (fun _ => 0) ⟨1, 0, 0, []⟩).map
        (fun r => (createCount 0 r.2, destroyCount 0 r.2)) = some (1, 2) ∧
    (timerReassignment 0 1 ⟨1, 0, 0, []⟩).map
        (fun g => (createCount 0 g, destroyCount 0 g, createCount 1 g, destroyCount 1 g))
      = some (1, 0, 1, 2) := by
  constructor <;> decide

/-! ## MPIFreeComms -/

theorem getElem?_append_cons_length {α : Type} (c : α) (rest : List α) :
    ∀ pre : List α, (pre ++ c :: rest)[pre.length]? = some c
  | [] => by simp
  | _ :: pre => by simpa using getElem?_append_cons_length c rest pre

theorem set_append_cons_length {α : Type} (c x : α) (rest : List α) :
    ∀ pre : List α, (pre ++ c :: rest).set pre.length x = pre ++ x :: rest
  | [] => by simp
  | _ :: pre => by simp [set_append_cons_length c x rest pre]

/-- The loop of `MPIFreeComms` over the entries `mid` that follow `pre` releases them in
order and makes their handles `MPI_COMM_NULL`. -/
theorem freeLoop_spec (ThisTask : Nat) (names : List String) (post : List MPI_Comm) :
    ∀ (mid pre : List MPI_Comm) (freed : List (Nat × MPI_Comm)),
      pre.length + mid.length ≤ names.length →
      freeLoop ThisTask names mid.length pre.length (pre ++ mid ++ post) freed =
        some (pre ++ List.replicate mid.length .COMM_NULL ++ post,
          freed ++ mid.enumFrom pre.length) := by
  intro mid
  induction mid with
  | nil => intro pre freed _; simp [freeLoop]
  | cons c mid ih =>
    intro pre freed hlen
    have hlen' : pre.length + (mid.length + 1) ≤ names.length := by simpa using hlen
    have hnot : ¬ (ThisTask = 0 ∧ names.length ≤ pre.length) := by
      intro h; omega
    have hget : (pre ++ c :: mid ++ post)[pre.length]? = some c := by
      rw [List.append_assoc, List.cons_append]
      exact getElem?_append_cons_length c _ pre
    have hlt : pre.length < (pre ++ c :: mid ++ post).length := by
      simp only [List.length_append, List.length_cons]; omega
    have hset : (pre ++ c :: mid ++ post).set pre.length .COMM_NULL
        = (pre ++ [.COMM_NULL]) ++ mid ++ post := by
      rw [List.append_assoc, List.cons_append, set_append_cons_length]
      simp
    have hstep : freeLoop ThisTask names ((c :: mid).length) pre.length
        (pre ++ c :: mid ++ post) freed
        = freeLoop ThisTask names mid.length (pre ++ [MPI_Comm.COMM_NULL]).length
            ((pre ++ [.COMM_NULL]) ++ mid ++ post) (freed ++ [(pre.length, c)]) := by
      simp only [List.length_cons, freeLoop, if_neg hnot, hget, vecSet_of_lt _ _ _ hlt, hset,
        List.length_append, List.length_singleton, List.length_nil, Nat.zero_add]
    have hpre : (pre ++ [MPI_Comm.COMM_NULL]).length + mid.length ≤ names.length := by
      simp only [List.length_append, List.length_singleton]
      omega
    rw [hstep, ih (pre ++ [MPI_Comm.COMM_NULL]) _ hpre]
    simp [List.replicate_succ, List.enumFrom_cons]

theorem MPIFreeComms_eq (ThisTask : Nat) (mpi_comms : List MPI_Comm) (names : List String)
    (h1 : 1 ≤ mpi_comms.length) (h64 : mpi_comms.length < 2 ^ 64)
    (hn : names.length = mpi_comms.length) :
    MPIFreeComms ThisTask mpi_comms names =
      some (List.replicate (mpi_comms.length - 1) .COMM_NULL
          ++ mpi_comms.drop (mpi_comms.length - 1),
        (mpi_comms.take (mpi_comms.length - 1)).enum) := by
  have hb : (mpi_comms.length + 2 ^ 64 - 1) % 2 ^ 64 = mpi_comms.length - 1 := by omega
  have hmid : (mpi_comms.take (mpi_comms.length - 1)).length = mpi_comms.length - 1 := by
    rw [List.length_take]; omega
  have hsplit : mpi_comms = [] ++ mpi_comms.take (mpi_comms.length - 1)
      ++ mpi_comms.drop (mpi_comms.length - 1) := by simp
  have hspec := freeLoop_spec ThisTask names (mpi_comms.drop (mpi_comms.length - 1))
    (mpi_comms.take (mpi_comms.length - 1)) [] [] (by simp only [List.length_nil]; omega)
  rw [hmid, ← hsplit] at hspec
  unfold MPIFreeComms
  rw [hb]
  exact hspec

/-- C19: `MPIFreeComms` applied to the vectors of a hierarchy of `L ≥ 1` levels releases
the communicators at the indices `0 .. L-2`, in this order and each once, sets their
handles to `MPI_COMM_NULL`, and leaves the last entry, which it never releases. -/
theorem C19_free_all_but_last :
    ∀ (ThisTask : Nat) (mpi_comms : List MPI_Comm) (mpi_comms_name : List String),
      1 ≤ mpi_comms.length → mpi_comms.length < 2 ^ 64 →
      mpi_comms_name.length = mpi_comms.length →
      ∃ after freed, MPIFreeComms ThisTask mpi_comms mpi_comms_name = some (after, freed) ∧
        freed.map Prod.fst = List.range (mpi_comms.length - 1) ∧
        freed.map Prod.snd = mpi_comms.take (mpi_comms.length - 1) ∧
        (∀ c, (mpi_comms.length - 1, c) ∉ freed) ∧
        after = List.replicate (mpi_comms.length - 1) .COMM_NULL
          ++ mpi_comms.drop (mpi_comms.length - 1) ∧
        after.getLast? = mpi_comms.getLast? := by
  intro ThisTask mpi_comms names h1 h64 hn
  have hmid : (mpi_comms.take (mpi_comms.length - 1)).length = mpi_comms.length - 1 := by
    rw [List.length_take]; omega
  have hfst : ((mpi_comms.take (mpi_comms.length - 1)).enum).map Prod.fst
      = List.range (mpi_comms.length - 1) := by
    rw [List.enum_map_fst, hmid]
  refine ⟨_, _, MPIFreeComms_eq ThisTask mpi_comms names h1 h64 hn, hfst, ?_, ?_, rfl, ?_⟩
  · exact List.enumFrom_map_snd 0 _
  · intro c hc
    have hmem : mpi_comms.length - 1 ∈ ((mpi_comms.take (mpi_comms.length - 1)).enum).map
        Prod.fst := List.mem_map.mpr ⟨_, hc, rfl⟩
    rw [hfst, List.mem_range] at hmem
    omega
  · rw [List.getLast?_append, List.getLast?_drop, if_neg (by omega)]
    cases hl : mpi_comms.getLast? with
    | none =>
      rw [List.getLast?_eq_none_iff] at hl
      rw [hl] at h1
      simp at h1
    | some x => simp

theorem C19_free_all_but_last_witness :
    ∃ after freed,
      MPIFreeComms 0 [.SPLIT [0, 2], .COMM_WORLD] ["Tag_2_worldrank_0", "Tag_world"]
        = some (after, freed) ∧
      freed.map Prod.snd = [MPI_Comm.SPLIT [0, 2]] ∧
      after = [MPI_Comm.COMM_NULL, MPI_Comm.COMM_WORLD] :=
  (C19_free_all_but_last 0 [.SPLIT [0, 2], .COMM_WORLD] ["Tag_2_worldrank_0", "Tag_world"]
    (by decide) (by norm_num) rfl).imp
    (fun _ h => h.imp (fun _ h => ⟨h.1, h.2.2.1, h.2.2.2.2.1⟩))

/-- C20 (failing input): with 4 processes and the default options (only the GPU tests
run), `MPITestGPUSendRecv` creates the group communicator `{0, 2}` of rank 0 and no call
releases it; with the CPU tests enabled as well, three communicators are created and only
the one of `MPITestCPUAllReduce` is released. -/
theorem C20_communicators_left_unreleased :
    (MPIRunTests {} 4 0 ⟨[], []⟩).map CommLedger.unreleased = some [.SPLIT [0, 2]] ∧
    MPIRunTests { icpu := true } 4 0 ⟨[], []⟩
      = some ⟨[.SPLIT [0, 2], .SPLIT [0, 2], .SPLIT [0, 2]], [.SPLIT [0, 2]]⟩ ∧
    (MPIRunTests { icpu := true } 4 0 ⟨[], []⟩).map CommLedger.unreleased
      = some [.SPLIT [0, 2], .SPLIT [0, 2]] := by
  refine ⟨by decide, by decide, by decide⟩

/-! ## MPITestCPUCorrectSendRecv -/

theorem compareLoop_eq (itask : Nat) (data refdata : List ℚ) (idxs : List Nat) :
    compareLoop itask data refdata idxs =
      if ∀ i ∈ idxs, data.getD i 0 = refdata.getD i 0 then .ok ()
      else .error { comm := .COMM_WORLD, errorcode := 8, itask := itask, what := .wrongData } := by
  induction idxs with
  | nil => simp [compareLoop]
  | cons i rest ih =>
    unfold compareLoop
    have hcons : (∀ j ∈ i :: rest, data.getD j 0 = refdata.getD j 0) ↔
        (data.getD i 0 = refdata.getD i 0 ∧ ∀ j ∈ rest, data.getD j 0 = refdata.getD j 0) :=
      List.forall_mem_cons
    by_cases h : data.getD i 0 = refdata.getD i 0
    · rw [if_neg (not_not.mpr h), ih]
      by_cases hall : ∀ j ∈ rest, data.getD j 0 = refdata.getD j 0
      · rw [if_pos hall, if_pos (hcons.mpr ⟨h, hall⟩)]
      · rw [if_neg hall, if_neg (fun hc => hall (hcons.mp hc).2)]
    · rw [if_pos h, if_neg (fun hc => h (hcons.mp hc).1)]

theorem all_eq_of_length_five (k : Nat) (l : List ℚ) (h : l.length = 5) :
    (∀ i ∈ List.range 5, l.getD i 0 = (List.replicate 5 ((2 : ℚ) ^ k)).getD i 0)
      ↔ ∀ x ∈ l, x = (2 : ℚ) ^ k := by
  match l, h with
  | [a, b, c, d, e], _ =>
    simp [List.range_succ, List.replicate_succ]

/-- One iteration of the root on a message whose payload has the declared length. -/
theorem rootReceive_eq (k : Nat) (msg : Nat × List ℚ) (data : List ℚ)
    (hlen : msg.2.length = msg.1) :
    rootReceive 5 k msg data =
      if msg.1 ≠ 5 then
        .error { comm := .COMM_WORLD, errorcode := 8, itask := k, what := .wrongSize }
      else if ∀ x ∈ msg.2, x = (2 : ℚ) ^ k then .ok msg.2
      else .error { comm := .COMM_WORLD, errorcode := 8, itask := k, what := .wrongData } := by
  by_cases h5 : msg.1 = 5
  · have hl : msg.2.length = 5 := by rw [hlen, h5]
    have hbuf : List.take 5 msg.2 ++ List.drop msg.2.length (vecResize 0 data 5) = msg.2 := by
      have h1 : List.take 5 msg.2 = msg.2 := List.take_of_length_le (by omega)
      have h2 : List.drop msg.2.length (vecResize 0 data 5) = [] := by
        apply List.drop_of_length_le
        simp only [vecResize, List.length_append, List.length_take, List.length_replicate]
        omega
      rw [h1, h2, List.append_nil]
    simp only [rootReceive, h5, ne_eq, not_true_eq_false, if_false, hbuf, compareLoop_eq,
      all_eq_of_length_five k msg.2 hl]
    by_cases hall : ∀ x ∈ msg.2, x = (2 : ℚ) ^ k
    · rw [if_pos hall, if_pos hall]
    · rw [if_neg hall, if_neg hall]
  · simp [rootReceive, h5]

theorem rootReceive_of_accepted (k : Nat) (msg : Nat × List ℚ) (data : List ℚ)
    (hlen : msg.2.length = msg.1) (h : acceptedMessage k msg) :
    rootReceive 5 k msg data = .ok msg.2 := by
  rw [rootReceive_eq k msg data hlen, if_neg (not_not.mpr h.1), if_pos h.2]

theorem rootReceive_of_not_accepted (k : Nat) (msg : Nat × List ℚ) (data : List ℚ)
    (hlen : msg.2.length = msg.1) (h : ¬ acceptedMessage k msg) :
    rootReceive 5 k msg data =
      .error { comm := .COMM_WORLD, errorcode := 8, itask := k,
               what := if msg.1 ≠ 5 then .wrongSize else .wrongData } := by
  rw [rootReceive_eq k msg data hlen]
  by_cases h5 : msg.1 = 5
  · have hall : ¬ ∀ x ∈ msg.2, x = (2 : ℚ) ^ k := fun hall => h ⟨h5, hall⟩
    simp [h5, hall]
  · simp [h5]

/-- The loop of the root completes when every sender in the list is accepted. -/
theorem rootLoop_ok (root : Nat) (msgs : Nat → Nat × List ℚ)
    (hlen : ∀ k, (msgs k).2.length = (msgs k).1) :
    ∀ (l : List Nat) (data : List ℚ),
      (∀ k ∈ l, k ≠ root → acceptedMessage k (msgs k)) →
      ∃ d, rootLoop root 5 msgs l data = .ok d := by
  intro l
  induction l with
  | nil => intro data _; exact ⟨data, rfl⟩
  | cons k rest ih =>
    intro data h
    have hrest : ∀ j ∈ rest, j ≠ root → acceptedMessage j (msgs j) :=
      fun j hj => h j (List.mem_cons_of_mem _ hj)
    by_cases hk : k = root
    · simpa [rootLoop, hk] using ih data hrest
    · have hacc := h k (List.mem_cons_self _ _) hk
      simpa [rootLoop, hk, rootReceive_of_accepted k (msgs k) data (hlen k) hacc]
        using ih (msgs k).2 hrest

/-- The loop of the root aborts at the first sender of the list that is not accepted. -/
theorem rootLoop_error (root : Nat) (msgs : Nat → Nat × List ℚ)
    (hlen : ∀ k, (msgs k).2.length = (msgs k).1) (k : Nat) (l₂ : List Nat) (hk : k ≠ root)
    (hbad : ¬ acceptedMessage k (msgs k)) :
    ∀ (l₁ : List Nat) (data : List ℚ),
      (∀ j ∈ l₁, j ≠ root → acceptedMessage j (msgs j)) →
      rootLoop root 5 msgs (l₁ ++ k :: l₂) data =
        .error { comm := .COMM_WORLD, errorcode := 8, itask := k,
                 what := if (msgs k).1 ≠ 5 then .wrongSize else .wrongData } := by
  intro l₁
  induction l₁ with
  | nil =>
    intro data _
    simp only [List.nil_append, rootLoop, if_neg hk,
      rootReceive_of_not_accepted k (msgs k) data (hlen k) hbad]
  | cons j rest ih =>
    intro data h
    have hrest : ∀ i ∈ rest, i ≠ root → acceptedMessage i (msgs i) :=
      fun i hi => h i (List.mem_cons_of_mem _ hi)
    by_cases hj : j = root
    · simpa [rootLoop, hj] using ih data hrest
    · have hacc := h j (List.mem_cons_self _ _) hj
      simpa [rootLoop, hj, rootReceive_of_accepted j (msgs j) data (hlen j) hacc]
        using ih (msgs j).2 hrest

theorem range_split (T k : Nat) (h : k < T) :
    List.range T = List.range k ++ k :: List.range' (k + 1) (T - k - 1) := by
  obtain ⟨m, rfl⟩ : ∃ m, T = (m + 1) + k := ⟨T - k - 1, by omega⟩
  have hm : m + 1 + k - k - 1 = m := by omega
  rw [hm, List.range_eq_range', List.range_eq_range', ← List.range'_append_1 0 k (m + 1),
    Nat.zero_add, List.range'_succ]

/-- The root aborts with code 8 at the lowest-ranked sender that is not accepted. -/
theorem correctSendRecv_abort_at_first (T : Nat) (msgs : Nat → Nat × List ℚ)
    (hlen : ∀ k, (msgs k).2.length = (msgs k).1) (k : Nat) (hk1 : 1 ≤ k) (hkT : k < T)
    (hgood : ∀ j, 1 ≤ j → j < k → acceptedMessage j (msgs j))
    (hbad : ¬ acceptedMessage k (msgs k)) :
    MPITestCPUCorrectSendRecv T 0 0 msgs =
      .error { comm := .COMM_WORLD, errorcode := 8, itask := k,
               what := if (msgs k).1 ≠ 5 then .wrongSize else .wrongData } := by
  have hloop := rootLoop_error 0 msgs hlen k (List.range' (k + 1) (T - k - 1))
    (by omega) hbad (List.range k) (List.replicate 5 ((2 : ℚ) ^ 0))
    (fun j hj hj0 => hgood j (by omega) (List.mem_range.mp hj))
  rw [← range_split T k hkT] at hloop
  simp only [MPITestCPUCorrectSendRecv, if_true, hloop]

/-- The root returns when every other rank is accepted. -/
theorem correctSendRecv_ok (T : Nat) (msgs : Nat → Nat × List ℚ)
    (hlen : ∀ k, (msgs k).2.length = (msgs k).1)
    (hgood : ∀ k, 1 ≤ k → k < T → acceptedMessage k (msgs k)) :
    MPITestCPUCorrectSendRecv T 0 0 msgs = .ok () := by
  obtain ⟨d, hd⟩ := rootLoop_ok 0 msgs hlen (List.range T) (List.replicate 5 ((2 : ℚ) ^ 0))
    (fun k hk hk0 => hgood k (by omega) (List.mem_range.mp hk))
  simp only [MPITestCPUCorrectSendRecv, if_true, hd]

theorem acceptedMessage_senderMessage (k : Nat) : acceptedMessage k (senderMessage k) :=
  ⟨by simp [senderMessage], fun _ hx => List.eq_of_mem_replicate hx⟩

/-- C11: with `T ≥ 2` processes and root rank 0, whatever declared size and payload (of the
declared length) the root receives from each other rank, `MPITestCPUCorrectSendRecv`
returns at the root if and only if every rank `k ≥ 1` declared the size 5 and sent 5
elements equal to `2^k`; otherwise the root calls `MPI_Abort(MPI_COMM_WORLD, 8)` while
checking the lowest-ranked offending sender, for a wrong size before the payload is
compared. With 4 processes the messages that ranks 1..3 send are accepted, and changing one
element of the payload of rank 2 aborts with code 8. -/
theorem C11_correctness_check :
    (∀ (T : Nat) (msgs : Nat → Nat × List ℚ), 2 ≤ T →
      (∀ k, (msgs k).2.length = (msgs k).1) →
      (MPITestCPUCorrectSendRecv T 0 0 msgs = .ok () ↔
        ∀ k, 1 ≤ k → k < T → (msgs k).1 = 5 ∧ ∀ x ∈ (msgs k).2, x = (2 : ℚ) ^ k) ∧
      (∀ k, 1 ≤ k → k < T →
        (∀ j, 1 ≤ j → j < k → (msgs j).1 = 5 ∧ ∀ x ∈ (msgs j).2, x = (2 : ℚ) ^ j) →
        ¬ ((msgs k).1 = 5 ∧ ∀ x ∈ (msgs k).2, x = (2 : ℚ) ^ k) →
        MPITestCPUCorrectSendRecv T 0 0 msgs =
          .error { comm := .COMM_WORLD, errorcode := 8, itask := k,
                   what := if (msgs k).1 ≠ 5 then .wrongSize else .wrongData })) ∧
    MPITestCPUCorrectSendRecv 4 0 0 senderMessage = .ok () ∧
    MPITestCPUCorrectSendRecv 4 0 0
        (fun k => if k = 2 then (5, [4, 4, 5, 4, 4]) else senderMessage k)
      = .error { comm := .COMM_WORLD, errorcode := 8, itask := 2, what := .wrongData } := by
  refine ⟨?_, ?_, ?_⟩
  · intro T msgs _ hlen
    have habort := correctSendRecv_abort_at_first T msgs hlen
    refine ⟨⟨?_, correctSendRecv_ok T msgs hlen⟩, habort⟩
    intro hok
    by_contra hnot
    have hex : ∃ k, 1 ≤ k ∧ k < T ∧ ¬ acceptedMessage k (msgs k) := by
      by_contra hne
      apply hnot
      intro k hk1 hkT
      by_contra hk
      exact hne ⟨k, hk1, hkT, hk⟩
    classical
    have hmin : ∀ {m : Nat}, m < Nat.find hex →
        ¬ (1 ≤ m ∧ m < T ∧ ¬ acceptedMessage m (msgs m)) := fun hm => Nat.find_min hex hm
    obtain ⟨hk1, hkT, hbad⟩ := Nat.find_spec hex
    have hgood : ∀ j, 1 ≤ j → j < Nat.find hex → acceptedMessage j (msgs j) := by
      intro j hj1 hjk
      by_contra hj
      exact hmin hjk ⟨hj1, by omega, hj⟩
    rw [habort (Nat.find hex) hk1 hkT hgood hbad] at hok
    exact absurd hok (by simp)
  · exact correctSendRecv_ok 4 senderMessage (fun _ => rfl)
      (fun k _ _ => acceptedMessage_senderMessage k)
  · have hlen : ∀ k, ((fun k => if k = 2 then ((5 : Nat), ([4, 4, 5, 4, 4] : List ℚ))
        else senderMessage k) k).2.length
        = ((fun k => if k = 2 then ((5 : Nat), ([4, 4, 5, 4, 4] : List ℚ))
        else senderMessage k) k).1 := by
      intro k
      by_cases hk : k = 2
      · simp [hk]
      · simp [hk, senderMessage]
    have h := correctSendRecv_abort_at_first 4 _ hlen 2 (by decide) (by decide)
      (fun j hj1 hj2 => by
        have hj : j = 1 := by omega
        subst hj
        simpa using acceptedMessage_senderMessage 1)
      (by
        intro hacc
        have h5 := hacc.2 5 (by simp)
        norm_num at h5)
    simpa using h

theorem C11_correctness_check_witness :
    (2 ≤ 4 ∧ ∀ k, (senderMessage k).2.length = (senderMessage k).1) ∧
      (MPITestCPUCorrectSendRecv 4 0 0 senderMessage = .ok () ↔
        ∀ k, 1 ≤ k → k < 4 →
          (senderMessage k).1 = 5 ∧ ∀ x ∈ (senderMessage k).2, x = (2 : ℚ) ^ k) :=
  ⟨⟨by decide, fun _ => rfl⟩,
    (C11_correctness_check.1 4 senderMessage (by decide) (fun _ => rfl)).1⟩

/-! ## Bounds of the vector accesses of `MPIAllocateComms` -/

/-- C27: for every process count `T ≥ 1` the five vectors are allocated with
`numcomsold = floor(log2 T) + 1` entries, the loop `i <= numcomsold` meets its break
condition `NLocalComms[i] < 2` first at an index `i ≤ numcomsold - 1`, it leaves there with
`numcoms = i + 1`, and neither the loop nor the writes at index `numcoms - 1` after it
access a vector out of bounds. -/
theorem C27_loop_leaves_through_break :
    ∀ T r : Nat, 1 ≤ T →
      (allocInit T).numcoms = floorLog2 T + 1 ∧ floorLog2 T = Nat.log 2 T ∧
      (allocInit T).mpi_comms.length = floorLog2 T + 1 ∧
      (allocInit T).mpi_comms_name.length = floorLog2 T + 1 ∧
      (allocInit T).ThisLocalTask.length = floorLog2 T + 1 ∧
      (allocInit T).NProcsLocal.length = floorLog2 T + 1 ∧
      (allocInit T).NLocalComms.length = floorLog2 T + 1 ∧
      ∃ i s h,
        i ≤ (floorLog2 T + 1) - 1 ∧ groupCount T i < 2 ∧ (∀ j, j < i → ¬ groupCount T j < 2) ∧
        allocLoop T r ((allocInit T).numcoms + 1) 0 (allocInit T) = some s ∧
        s.numcoms = i + 1 ∧ s.numcoms - 1 < floorLog2 T + 1 ∧
        allocFinish T r s = some h ∧ MPIAllocateComms T r = some h := by
  intro T r _
  have hinit := allocInit_inv T r
  obtain ⟨s, hloop, hnum, hinv⟩ :=
    allocLoop_spec T r (floorLog2 T + 1) (breakIndex_lt T) (breakIndex T) 0
      ((allocInit T).numcoms + 1) (allocInit T) (by omega)
      (by have := breakIndex_lt T; simp [allocInit]; omega) hinit
  have hfin := allocFinish_spec T r _ s (breakIndex_lt T) hnum hinv
  refine ⟨rfl, floorLog2_eq_log T, hinit.len_comms, hinit.len_names, hinit.len_ltask,
    hinit.len_nloc, hinit.len_nlc, breakIndex T, s, _, ?_, groupCount_break_lt_two T, ?_,
    hloop, hnum, ?_, hfin, MPIAllocateComms_eq T r⟩
  · have := breakIndex_lt T; omega
  · intro j hj
    have := groupCount_ge_two T j hj
    omega
  · have := breakIndex_lt T; omega

theorem C27_loop_leaves_through_break_witness :
    1 ≤ 6 ∧ ∃ i s h,
        i ≤ (floorLog2 6 + 1) - 1 ∧ groupCount 6 i < 2 ∧ (∀ j, j < i → ¬ groupCount 6 j < 2) ∧
        allocLoop 6 3 ((allocInit 6).numcoms + 1) 0 (allocInit 6) = some s ∧
        s.numcoms = i + 1 ∧ s.numcoms - 1 < floorLog2 6 + 1 ∧
        allocFinish 6 3 s = some h ∧ MPIAllocateComms 6 3 = some h :=
  ⟨by decide, (C27_loop_leaves_through_break 6 3 (by decide)).2.2.2.2.2.2.2⟩

/-! ## Labels of the levels -/

theorem succ_le_of_two_le_groupCount_two_pow (k i : Nat) (h : 2 ≤ groupCount (2 ^ k) i) :
    i + 2 ≤ k := by
  by_contra hcon
  have hlt : 2 ^ k < 2 * 2 ^ (i + 1) := by
    calc 2 ^ k < 2 ^ (i + 2) := Nat.pow_lt_pow_right (by decide) (by omega)
      _ = 2 * 2 ^ (i + 1) := by ring
  have h2 : groupCount (2 ^ k) i < 2 := by
    unfold groupCount
    rw [Nat.div_lt_iff_lt_mul (by positivity)]
    exact hlt
  omega

/-- For a power of two the group of a rank at the split level `i` has `2^(i+1)` members. -/
theorem MPI_Comm_size_two_pow (k r i : Nat) (h : 2 ≤ groupCount (2 ^ k) i) :
    MPI_Comm_size (2 ^ k) (levelComm (2 ^ k) r i) = 2 ^ (i + 1) := by
  have hk := succ_le_of_two_le_groupCount_two_pow k i h
  have hg : groupCount (2 ^ k) i = 2 ^ (k - (i + 1)) := groupCount_two_pow k i (by omega)
  rw [MPI_Comm_size_levelComm,
    groupSize_eq _ _ _ (by omega) (Nat.mod_lt _ (by omega)), hg]
  have hdvd : 2 ^ (k - (i + 1)) ∣ 2 ^ k := Nat.pow_dvd_pow 2 (by omega)
  have hmod : 2 ^ k % 2 ^ (k - (i + 1)) = 0 := Nat.mod_eq_zero_of_dvd hdvd
  have hdiv : 2 ^ k / 2 ^ (k - (i + 1)) = 2 ^ (i + 1) := by
    rw [Nat.pow_div (by omega) (by decide)]
    congr 1
    omega
  rw [hmod, hdiv]
  simp

theorem getElem?_zero_eq_headD {α : Type} (d : α) : ∀ l : List α, l ≠ [] →
    l[0]? = some (l.headD d)
  | [], h => absurd rfl h
  | _ :: _, _ => by simp

theorem mem_groupOf_self (T g r : Nat) (h : r < T) : r ∈ groupOf T g r := by
  simp [groupOf, h]

/-- C22 (counterexample): with 4 processes the last level of rank 0 has the 4 members of
the job and local rank 0 is world rank 0, but its label is `Tag_world` and not
`Tag_4_worldrank_0`. -/
theorem C22_label_counterexample :
    ∃ h c, MPIAllocateComms 4 0 = some h ∧ h.numcoms = 2 ∧ h.mpi_comms[1]? = some c ∧
      MPI_Comm_size 4 c = 4 ∧ (commMembers 4 c)[0]? = some 0 ∧
      h.mpi_comms_name[1]? = some "Tag_world" ∧
      "Tag_world" ≠ "Tag_" ++ toString (MPI_Comm_size 4 c) ++ "_worldrank_" ++ toString 0 := by
  refine ⟨hierarchyOf 4 0 (breakIndex 4), .COMM_WORLD, MPIAllocateComms_eq 4 0, ?_, ?_, ?_, ?_,
    ?_, ?_⟩ <;> decide

/-- C22 (amended): the label of the last level is `Tag_world` for every process count; and
when the process count is a power of two, the label of every other level of a rank is
`"Tag_" + groupSize + "_worldrank_" + representativeRank`, with `groupSize` the number of
members of the rank's group at that level and `representativeRank` the world rank of its
member of local rank 0. -/
theorem C22_labels_power_of_two :
    ∀ k r : Nat, r < 2 ^ k →
      (∀ T r' : Nat, ∃ h, MPIAllocateComms T r' = some h ∧
        h.mpi_comms_name[h.numcoms - 1]? = some "Tag_world") ∧
      ∃ h, MPIAllocateComms (2 ^ k) r = some h ∧
        ∀ i, i < h.numcoms - 1 →
          ∃ c rep, h.mpi_comms[i]? = some c ∧ (commMembers (2 ^ k) c)[0]? = some rep ∧
            h.mpi_comms_name[i]? =
              some ("Tag_" ++ toString (MPI_Comm_size (2 ^ k) c) ++ "_worldrank_"
                ++ toString rep) := by
  intro k r hr
  refine ⟨fun T r' => ⟨_, MPIAllocateComms_eq T r', getElem?_map_range_append_last _ _ _⟩,
    _, MPIAllocateComms_eq (2 ^ k) r, ?_⟩
  intro i hi
  have hiK : i < breakIndex (2 ^ k) := by simpa [hierarchyOf] using hi
  have hg := groupCount_ge_two (2 ^ k) i hiK
  have hne : commMembers (2 ^ k) (levelComm (2 ^ k) r i) ≠ [] :=
    List.ne_nil_of_mem (mem_groupOf_self (2 ^ k) _ r hr)
  refine ⟨levelComm (2 ^ k) r i, _, getElem?_map_range_append _ _ _ _ hiK,
    getElem?_zero_eq_headD 0 _ hne, ?_⟩
  rw [MPI_Comm_size_two_pow k r i hg]
  exact getElem?_map_range_append _ _ _ _ hiK

theorem C22_labels_power_of_two_witness :
    3 < 2 ^ 3 ∧ ∃ h, MPIAllocateComms (2 ^ 3) 3 = some h ∧
        ∀ i, i < h.numcoms - 1 →
          ∃ c rep, h.mpi_comms[i]? = some c ∧ (commMembers (2 ^ 3) c)[0]? = some rep ∧
            h.mpi_comms_name[i]? =
              some ("Tag_" ++ toString (MPI_Comm_size (2 ^ 3) c) ++ "_worldrank_"
                ++ toString rep) :=
  ⟨by decide, (C22_labels_power_of_two 3 3 (by decide)).2⟩

/-! ## pu_gpuErrorCheck -/

theorem pu_gpuErrorCheck_eq (err : Nat) :
    pu_gpuErrorCheck err = if err = pu_gpuSuccess then .ok () else .error (.exit 0) := by
  unfold pu_gpuErrorCheck
  by_cases h : err = pu_gpuSuccess
  · simp [h]
  · have h' : pu_gpuSuccess ≠ err := fun e => h e.symm
    simp [h, h']

theorem checkedCalls_ok_or_exit (l : List Nat) :
    checkedCalls l = .ok () ∨ checkedCalls l = .error (.exit 0) := by
  induction l with
  | nil => exact Or.inl rfl
  | cons err rest ih =>
    unfold checkedCalls
    rw [pu_gpuErrorCheck_eq]
    by_cases h : err = pu_gpuSuccess
    · simpa [h] using ih
    · simp [h]

/-- C21 (counterexample): a wrapped device call that returns the error 2 (out of memory)
ends the detecting process with `exit(0)`, which is not an `MPI_Abort` of any
communicator; so does the allocation loop of `MPITestGPUSendRecv` when the first
`pu_gpuHostMalloc` on device 0 fails. -/
theorem C21_error_check_counterexample :
    pu_gpuErrorCheck 2 = .error (.exit 0) ∧
    (∀ comm errorcode, pu_gpuErrorCheck 2 ≠ .error (.mpiAbort comm errorcode)) ∧
    gpuAllocLoop (fun idev c => if idev = 0 ∧ c = 1 then 2 else 0) [0, 1] = .error (.exit 0) := by
  refine ⟨rfl, ?_, rfl⟩
  intro comm errorcode h
  have h2 : pu_gpuErrorCheck 2 = .error (.exit 0) := rfl
  rw [h2] at h
  cases h

theorem checkedCalls_ok_iff (l : List Nat) :
    checkedCalls l = .ok () ↔ ∀ err ∈ l, err = pu_gpuSuccess := by
  induction l with
  | nil => simp [checkedCalls]
  | cons err rest ih =>
    unfold checkedCalls
    rw [pu_gpuErrorCheck_eq, List.forall_mem_cons]
    by_cases h : err = pu_gpuSuccess
    · rw [if_pos h]
      exact ih.trans ⟨fun hr => ⟨h, hr⟩, fun hr => hr.2⟩
    · rw [if_neg h]
      exact ⟨fun hc => (by cases hc), fun hc => absurd hc.1 h⟩

theorem five_calls_iff (ret : Nat → Nat) :
    (∀ err ∈ [ret 0, ret 1, ret 2, ret 3, ret 4], err = pu_gpuSuccess) ↔
      ∀ c, c < 5 → ret c = pu_gpuSuccess := by
  constructor
  · intro h c hc
    have h0 := h (ret 0) (by simp)
    have h1 := h (ret 1) (by simp)
    have h2 := h (ret 2) (by simp)
    have h3 := h (ret 3) (by simp)
    have h4 := h (ret 4) (by simp)
    interval_cases c <;> assumption
  · intro h err herr
    simp only [List.mem_cons, List.mem_singleton, List.not_mem_nil, or_false] at herr
    rcases herr with rfl | rfl | rfl | rfl | rfl
    · exact h 0 (by decide)
    · exact h 1 (by decide)
    · exact h 2 (by decide)
    · exact h 3 (by decide)
    · exact h 4 (by decide)

theorem gpuAllocLoop_ok_or_exit (ret : Nat → Nat → Nat) (devices : List Nat) :
    gpuAllocLoop ret devices = .ok () ∨ gpuAllocLoop ret devices = .error (.exit 0) := by
  induction devices with
  | nil => exact Or.inl rfl
  | cons idev rest ih =>
    unfold gpuAllocLoop
    rcases checkedCalls_ok_or_exit [ret idev 0, ret idev 1, ret idev 2, ret idev 3, ret idev 4]
      with h | h
    · rw [h]; exact ih
    · rw [h]; exact Or.inr rfl

theorem gpuAllocLoop_ok_iff (ret : Nat → Nat → Nat) (devices : List Nat) :
    gpuAllocLoop ret devices = .ok () ↔
      ∀ idev ∈ devices, ∀ c, c < 5 → ret idev c = pu_gpuSuccess := by
  induction devices with
  | nil => simp [gpuAllocLoop]
  | cons idev rest ih =>
    unfold gpuAllocLoop
    rw [List.forall_mem_cons, ← five_calls_iff (ret idev), ← checkedCalls_ok_iff]
    rcases checkedCalls_ok_or_exit [ret idev 0, ret idev 1, ret idev 2, ret idev 3, ret idev 4]
      with h | h
    · rw [h]
      exact ih.trans ⟨fun hr => ⟨rfl, hr⟩, fun hr => hr.2⟩
    · rw [h]
      exact ⟨fun hc => (by cases hc), fun hc => (by cases hc.1)⟩

theorem compareLoop_error_abort (itask : Nat) (data refdata : List ℚ) (idxs : List Nat)
    (a : Abort) (h : compareLoop itask data refdata idxs = .error a) :
    a.comm = .COMM_WORLD ∧ a.errorcode = 8 := by
  rw [compareLoop_eq] at h
  split_ifs at h
  cases h
  exact ⟨rfl, rfl⟩

theorem rootReceive_error_abort (oldsize itask : Nat) (msg : Nat × List ℚ) (data : List ℚ)
    (a : Abort) (h : rootReceive oldsize itask msg data = .error a) :
    a.comm = .COMM_WORLD ∧ a.errorcode = 8 := by
  unfold rootReceive at h
  by_cases hs : msg.1 = oldsize
  · simp only [ne_eq, hs, not_true_eq_false, if_false] at h
    split at h
    · rename_i a' hc
      cases h
      exact compareLoop_error_abort _ _ _ _ _ hc
    · cases h
  · simp only [ne_eq, hs, not_false_eq_true, if_true] at h
    cases h
    exact ⟨rfl, rfl⟩

theorem rootLoop_error_abort (roottask oldsize : Nat) (msgs : Nat → Nat × List ℚ) (a : Abort) :
    ∀ (l : List Nat) (data : List ℚ), rootLoop roottask oldsize msgs l data = .error a →
      a.comm = .COMM_WORLD ∧ a.errorcode = 8 := by
  intro l
  induction l with
  | nil => intro data h; cases h
  | cons itask rest ih =>
    intro data h
    unfold rootLoop at h
    by_cases hk : itask = roottask
    · rw [if_pos hk] at h
      exact ih data h
    · rw [if_neg hk] at h
      split at h
      · rename_i a' hc
        cases h
        exact rootReceive_error_abort _ _ _ _ _ hc
      · exact ih _ h

/-- Whatever the root receives, a call of `MPI_Abort` by `MPITestCPUCorrectSendRecv` is
`MPI_Abort(MPI_COMM_WORLD, 8)`. -/
theorem correctSendRecv_error_abort (NProcs ThisTask roottask : Nat)
    (msgs : Nat → Nat × List ℚ) (a : Abort)
    (h : MPITestCPUCorrectSendRecv NProcs ThisTask roottask msgs = .error a) :
    a.comm = .COMM_WORLD ∧ a.errorcode = 8 := by
  unfold MPITestCPUCorrectSendRecv at h
  by_cases hr : ThisTask = roottask
  · simp only [hr, if_true] at h
    split at h
    · rename_i a' hc
      cases h
      exact rootLoop_error_abort _ _ _ _ _ _ hc
    · cases h
  · simp only [hr, if_false] at h
    cases h

/-- C21 (amended): the fatal conditions of the correctness check end the whole process
set: when some rank `k ≥ 1` sends a wrong size or a wrong payload element, the root calls
`MPI_Abort` on `MPI_COMM_WORLD`, whose members are all the `T` processes, and every
`MPI_Abort` of the check is `MPI_Abort(MPI_COMM_WORLD, 8)`. A sequence of device calls
wrapped in `pu_gpuErrorCheck`, and the allocation loop of `MPITestGPUSendRecv`
(`pu_gpuSetDevice`, two `pu_gpuHostMalloc`, two `pu_gpuMemcpy` per device), completes if
and only if every call returns `pu_gpuSuccess`; when a call reports an error the process
that made it ends by `exit`, which is an exit of the local process and not an `MPI_Abort`
of any communicator. -/
theorem C21_fatal_conditions :
    (∀ (T : Nat) (msgs : Nat → Nat × List ℚ), 2 ≤ T →
      (∀ k, (msgs k).2.length = (msgs k).1) →
      (∃ k, 1 ≤ k ∧ k < T ∧ ¬ acceptedMessage k (msgs k)) →
      ∃ a, MPITestCPUCorrectSendRecv T 0 0 msgs = .error a ∧
        a.comm = .COMM_WORLD ∧ a.errorcode = 8 ∧ commMembers T a.comm = List.range T) ∧
    (∀ (NProcs ThisTask roottask : Nat) (msgs : Nat → Nat × List ℚ) (a : Abort),
      MPITestCPUCorrectSendRecv NProcs ThisTask roottask msgs = .error a →
        a.comm = .COMM_WORLD ∧ a.errorcode = 8) ∧
    (∀ l : List Nat,
      (checkedCalls l = .ok () ↔ ∀ err ∈ l, err = pu_gpuSuccess) ∧
      ((∃ err ∈ l, err ≠ pu_gpuSuccess) →
        ∃ status, checkedCalls l = .error (.exit status)) ∧
      (∀ comm errorcode, checkedCalls l ≠ .error (.mpiAbort comm errorcode))) ∧
    (∀ (ret : Nat → Nat → Nat) (devices : List Nat),
      (gpuAllocLoop ret devices = .ok () ↔
        ∀ idev ∈ devices, ∀ c, c < 5 → ret idev c = pu_gpuSuccess) ∧
      ((∃ idev ∈ devices, ∃ c, c < 5 ∧ ret idev c ≠ pu_gpuSuccess) →
        ∃ status, gpuAllocLoop ret devices = .error (.exit status)) ∧
      (∀ comm errorcode, gpuAllocLoop ret devices ≠ .error (.mpiAbort comm errorcode))) := by
  refine ⟨?_, correctSendRecv_error_abort, ?_, ?_⟩
  · intro T msgs _ hlen hex
    classical
    have hmin : ∀ {m : Nat}, m < Nat.find hex →
        ¬ (1 ≤ m ∧ m < T ∧ ¬ acceptedMessage m (msgs m)) := fun hm => Nat.find_min hex hm
    obtain ⟨hk1, hkT, hbad⟩ := Nat.find_spec hex
    have hgood : ∀ j, 1 ≤ j → j < Nat.find hex → acceptedMessage j (msgs j) := by
      intro j hj1 hjk
      by_contra hj
      exact hmin hjk ⟨hj1, by omega, hj⟩
    exact ⟨_, correctSendRecv_abort_at_first T msgs hlen (Nat.find hex) hk1 hkT hgood hbad,
      rfl, rfl, rfl⟩
  · intro l
    refine ⟨checkedCalls_ok_iff l, ?_, ?_⟩
    · rintro ⟨err, hmem, hne⟩
      rcases checkedCalls_ok_or_exit l with h | h
      · exact absurd ((checkedCalls_ok_iff l).mp h err hmem) hne
      · exact ⟨0, h⟩
    · intro comm errorcode hc
      rcases checkedCalls_ok_or_exit l with h | h <;> rw [h] at hc <;> cases hc
  · intro ret devices
    refine ⟨gpuAllocLoop_ok_iff ret devices, ?_, ?_⟩
    · rintro ⟨idev, hmem, c, hc, hne⟩
      rcases gpuAllocLoop_ok_or_exit ret devices with h | h
      · exact absurd ((gpuAllocLoop_ok_iff ret devices).mp h idev hmem c hc) hne
      · exact ⟨0, h⟩
    · intro comm errorcode hc
      rcases gpuAllocLoop_ok_or_exit ret devices with h | h <;> rw [h] at hc <;> cases hc

theorem C21_fatal_conditions_witness :
    ((2 ≤ 4 ∧
        (∀ k, ((fun k => if k = 2 then ((5 : Nat), ([4, 4, 5, 4, 4] : List ℚ))
            else senderMessage k) k).2.length
          = ((fun k => if k = 2 then ((5 : Nat), ([4, 4, 5, 4, 4] : List ℚ))
            else senderMessage k) k).1) ∧
        ∃ k, 1 ≤ k ∧ k < 4 ∧ ¬ acceptedMessage k
          ((fun k => if k = 2 then ((5 : Nat), ([4, 4, 5, 4, 4] : List ℚ))
            else senderMessage k) k)) ∧
      ∃ a, MPITestCPUCorrectSendRecv 4 0 0
          (fun k => if k = 2 then (5, [4, 4, 5, 4, 4]) else senderMessage k) = .error a ∧
        a.comm = .COMM_WORLD ∧ a.errorcode = 8 ∧ commMembers 4 a.comm = List.range 4) ∧
    (((0 : Nat) ∈ [0, 1] ∧ 1 < 5 ∧
        (fun idev c : Nat => if idev = 0 ∧ c = 1 then 2 else 0) 0 1 ≠ pu_gpuSuccess) ∧
      ∃ status,
        gpuAllocLoop (fun idev c => if idev = 0 ∧ c = 1 then 2 else 0) [0, 1]
          = .error (.exit status)) := by
  have hlen : ∀ k, ((fun k => if k = 2 then ((5 : Nat), ([4, 4, 5, 4, 4] : List ℚ))
      else senderMessage k) k).2.length
      = ((fun k => if k = 2 then ((5 : Nat), ([4, 4, 5, 4, 4] : List ℚ))
      else senderMessage k) k).1 := by
    intro k
    by_cases hk : k = 2
    · simp [hk]
    · simp [hk, senderMessage]
  have hbad : ∃ k, 1 ≤ k ∧ k < 4 ∧ ¬ acceptedMessage k
      ((fun k => if k = 2 then ((5 : Nat), ([4, 4, 5, 4, 4] : List ℚ))
        else senderMessage k) k) := by
    refine ⟨2, by decide, by decide, ?_⟩
    intro hacc
    have h5 := hacc.2 5 (by simp)
    norm_num at h5
  exact ⟨⟨⟨by decide, hlen, hbad⟩, C21_fatal_conditions.1 4 _ (by decide) hlen hbad⟩,
    ⟨⟨by simp, by decide, by decide⟩,
      (C21_fatal_conditions.2.2.2 (fun idev c => if idev = 0 ∧ c = 1 then 2 else 0) [0, 1]).2.1
        ⟨0, by simp, 1, by decide, by decide⟩⟩⟩

/-! ## memory_usage -/

/-- C28 (failing input): `a += b` never changes `a.rss.peak`, because the branch taken
when `a.rss.peak < b.rss.peak` assigns `a.vm.peak`; for `a` all zero and `b.rss.peak = 5`
the result has `rss.peak = 0` (not 5) and `vm.peak = 5` (not 0). -/
theorem C28_rss_peak_not_updated :
    (∀ a b : memory_usage, (a.addAssign b).rss.peak = a.rss.peak) ∧
    memory_usage.addAssign {} { rss := { peak := 5 } }
      = { vm := { current := 0, peak := 5, change := 0 },
          rss := { current := 0, peak := 0, change := 0 } } := by
  constructor
  · intro a b
    unfold memory_usage.addAssign
    simp only
    split <;> split <;> rfl
  · decide

/-! ## The active device after `set_ref` -/

/-- C29 (failing input): with 3 devices, a timer recorded on device 2 whose `set_ref` is
called while device 0 is active leaves device 2 active. -/
theorem C29_set_ref_changes_active_device :
    ∃ g t' g',
      pu_gpuSetDevice 0 (Timer.new "main" "1" true 0 ⟨3, 2, 0, []⟩).2 = some g ∧
      (Timer.new "main" "1" true 0 ⟨3, 2, 0, []⟩).1.device_id = 2 ∧
      g.curDevice = 0 ∧
      (Timer.new "main" "1" true 0 ⟨3, 2, 0, []⟩).1.set_ref "ref" 10 g = some (t', g') ∧
      g'.curDevice = 2 :=
  ⟨_, _, _, rfl, rfl, rfl, rfl, rfl⟩

/-! ## Printing amounts -/

/-- C24 (failing input): an amount of `2^20` bytes gives `v = 1024`, the test `v > 1024`
fails, and `1024.000 [KiB]` is printed, not `1.000 [MiB]`; while `2^10` bytes are printed
as `1.000 [KiB]`. -/
theorem C24_memory_amount_at_boundary :
    memory_amount (2 ^ 20) = .fixed3 1024 " [KiB]" ∧
    memory_amount (2 ^ 10) = .fixed3 1 " [KiB]" ∧
    memory_amount (2 ^ 30) = .fixed3 1024 " [MiB]" := by
  refine ⟨?_, ?_, ?_⟩ <;> norm_num [memory_amount]

/-- C25 (failing input): 1500 ns are printed as the integer `1` followed by ` [us]` and
2500000 ns as the integer `2` followed by ` [ms]`: the microsecond and millisecond
branches send the integer `time` to the stream, not `ftime` with 3 decimal places. -/
theorem C25_ns_time_prints_integer :
    ns_time 1500 = .integer 1 " [us]" ∧ ns_time 2500000 = .integer 2 " [ms]" := by
  constructor <;> decide

/-! ## Sends and receives of the exchange workload -/

theorem Timer.new_swap_device (f l : String) (b : Bool) (now : Int) (g : GpuState) :
    (Timer.new f l b now g).1.swap_device = false := by
  unfold Timer.new
  simp only
  split_ifs <;> rfl

theorem Timer.destroy_of_not_swapped (t : Timer) (g : GpuState) (h : t.swap_device = false) :
    ∃ g', t.destroy g = some g' := by
  unfold Timer.destroy
  by_cases hu : t.use_device = true
  · simp [hu, h]
  · simp [hu]

/-- The values that `MPIGatherTimeStats` returns at the rank `r` of a job of `T`
processes: at rank 0 one value per process in rank order, elsewhere `T` zeros. -/
theorem MPIGatherTimeStats_spec {α : Type} [Zero α] (T r : Nat) (t : Timer)
    (time_taken : Nat → α) (g : GpuState) (h : t.swap_device = false) :
    ∃ g', MPIGatherTimeStats T r t time_taken g =
      some (if r = 0 then (List.range T).map time_taken else List.replicate T 0, g') := by
  obtain ⟨g', hg'⟩ := Timer.destroy_of_not_swapped t g h
  exact ⟨g', by simp only [MPIGatherTimeStats, hg']⟩

theorem sendRecvIteration_spec {α : Type} [Zero α] (T r : Nat) (now : Int)
    (time_taken : Nat → α) (g : GpuState) :
    ∃ g', sendRecvIteration T r now time_taken g =
      some (if r = 0 then (List.range T).map time_taken else List.replicate T 0, g') := by
  have hsw := Timer.new_swap_device "MPITestCPUSendRecv" "220" true now g
  obtain ⟨g₁, h₁⟩ := MPIGatherTimeStats_spec T r _ time_taken
    (Timer.new "MPITestCPUSendRecv" "220" true now g).2 hsw
  obtain ⟨g₂, h₂⟩ := Timer.destroy_of_not_swapped _ g₁ hsw
  exact ⟨g₂, by simp only [sendRecvIteration, h₁, h₂]⟩

theorem allReduceIteration_spec {α : Type} [Zero α] (T r : Nat) (now : Int)
    (time_taken : Nat → α) (g : GpuState) :
    ∃ g', allReduceIteration T r now time_taken g =
      some (if r = 0 then (List.range T).map time_taken else List.replicate T 0, g') := by
  have hsw := Timer.new_swap_device "MPITestCPUAllReduce" "306" true now g
  obtain ⟨g₁, h₁⟩ := MPIGatherTimeStats_spec T r _ time_taken
    (Timer.new "MPITestCPUAllReduce" "306" true now g).2 hsw
  obtain ⟨g₂, h₂⟩ := Timer.destroy_of_not_swapped _ g₁ hsw
  exact ⟨g₂, by simp only [allReduceIteration, h₁, h₂]⟩

/-- The loop over the iterations appends the block of each iteration, in order. -/
theorem timesLoop_spec {α : Type} (body : Nat → GpuState → Option (List α × GpuState))
    (blk : Nat → List α) (hbody : ∀ iter g, ∃ g', body iter g = some (blk iter, g')) :
    ∀ (n iter : Nat) (times : List α) (g : GpuState),
      ∃ g', timesLoop body n iter times g =
        some (times ++ ((List.range' iter n).map blk).flatten, g') := by
  intro n
  induction n with
  | zero => intro iter times g; exact ⟨g, by simp [timesLoop]⟩
  | succ n ih =>
    intro iter times g
    obtain ⟨g₁, h₁⟩ := hbody iter g
    obtain ⟨g₂, h₂⟩ := ih (iter + 1) (times ++ blk iter) g₁
    refine ⟨g₂, ?_⟩
    simp only [timesLoop, h₁, h₂, List.range'_succ, List.map_cons, List.flatten_cons,
      List.append_assoc]

theorem blocks_length {α : Type} (blk : Nat → List α) (T : Nat)
    (hblk : ∀ k, (blk k).length = T) :
    ∀ n, (((List.range n).map blk).flatten).length = n * T := by
  intro n
  induction n with
  | zero => simp
  | succ n ih =>
    rw [List.range_succ, List.map_append, List.flatten_append, List.length_append, ih]
    simp [hblk, Nat.succ_mul]

theorem blocks_getElem? {α : Type} (blk : Nat → List α) (T : Nat)
    (hblk : ∀ k, (blk k).length = T) :
    ∀ n k p, k < n → p < T → (((List.range n).map blk).flatten)[k * T + p]? = (blk k)[p]? := by
  intro n
  induction n with
  | zero => intro k p hk; omega
  | succ n ih =>
    intro k p hk hp
    have hlen := blocks_length blk T hblk n
    rw [List.range_succ, List.map_append, List.flatten_append]
    by_cases hkn : k < n
    · have hlt : k * T + p < n * T := by
        have h1 : (k + 1) * T ≤ n * T := Nat.mul_le_mul_right T hkn
        rw [Nat.succ_mul] at h1
        omega
      rw [List.getElem?_append_left (by rw [hlen]; exact hlt)]
      exact ih k p hkn hp
    · have hk' : k = n := by omega
      subst hk'
      rw [List.getElem?_append_right (by rw [hlen]; omega), hlen]
      simp

theorem MPITestCPUSendRecv_times_spec {α : Type} [Zero α] (T r Niter : Nat) (now : Nat → Int)
    (time_taken : Nat → Nat → α) (g : GpuState) :
    ∃ g', MPITestCPUSendRecv_times T r Niter now time_taken g =
      some (((List.range Niter).map (fun k =>
        if r = 0 then (List.range T).map (time_taken k) else List.replicate T 0)).flatten, g') := by
  obtain ⟨g', hg'⟩ := timesLoop_spec
    (fun iter g => sendRecvIteration T r (now iter) (time_taken iter) g)
    (fun k => if r = 0 then (List.range T).map (time_taken k) else List.replicate T 0)
    (fun iter g => sendRecvIteration_spec T r (now iter) (time_taken iter) g) Niter 0 [] g
  exact ⟨g', by rw [MPITestCPUSendRecv_times, hg', List.nil_append, ← List.range_eq_range']⟩

theorem MPITestCPUAllReduce_times_spec {α : Type} [Zero α] (T r Niter : Nat) (now : Nat → Int)
    (time_taken : Nat → Nat → α) (g : GpuState) :
    ∃ g', MPITestCPUAllReduce_times T r Niter now time_taken g =
      some (((List.range Niter).map (fun k =>
        if r = 0 then (List.range T).map (time_taken k) else List.replicate T 0)).flatten, g') := by
  obtain ⟨g', hg'⟩ := timesLoop_spec
    (fun iter g => allReduceIteration T r (now iter) (time_taken iter) g)
    (fun k => if r = 0 then (List.range T).map (time_taken k) else List.replicate T 0)
    (fun iter g => allReduceIteration_spec T r (now iter) (time_taken iter) g) Niter 0 [] g
  exact ⟨g', by rw [MPITestCPUAllReduce_times, hg', List.nil_append, ← List.range_eq_range']⟩

theorem gathered_length {α : Type} [Zero α] (T r : Nat) (f : Nat → α) :
    (if r = 0 then (List.range T).map f else List.replicate T 0).length = T := by
  split <;> simp

/-- C23 (counterexample): with 4 processes and one iteration, the level 0 of rank 0 is a
group of 2 members, but the list passed to `TimeStats` for that level has 4 entries, one
per process of the job, and not `1 * 2`. -/
theorem C23_samples_counterexample :
    ∃ h times g', MPIAllocateComms 4 0 = some h ∧ h.NProcsLocal[0]? = some 2 ∧
      @MPITestCPUSendRecv_times ℝ _ 4 0 1 (fun _ => 0) (fun _ k => (k : ℝ)) ⟨1, 0, 0, []⟩
        = some (times, g') ∧
      times.length = 4 ∧ times.length ≠ 1 * 2 := by
  obtain ⟨g', hg'⟩ := @MPITestCPUSendRecv_times_spec ℝ _ 4 0 1 (fun _ => 0)
    (fun _ k => (k : ℝ)) ⟨1, 0, 0, []⟩
  have hlen := blocks_length
    (fun k : Nat => if (0 : Nat) = 0 then (List.range 4).map (fun p : Nat => (p : ℝ))
      else List.replicate 4 0) 4 (fun _ => gathered_length 4 0 _) 1
  refine ⟨hierarchyOf 4 0 (breakIndex 4), _, g', MPIAllocateComms_eq 4 0, by decide, hg', ?_, ?_⟩
  · rw [hlen]
  · rw [hlen]; decide

/-- C23 (amended): for every iteration count `Niter ≥ 1` and whatever the level, the list
that rank 0 passes to `TimeStats` has `Niter * T` entries, `T` being the process count of
the whole job: the `k`-th block of `T` entries holds the samples of iteration `k`, one per
process of the job, in world rank order. -/
theorem C23_samples_per_process_of_job :
    ∀ (T Niter : Nat) (now : Nat → Int) (time_taken : Nat → Nat → ℝ) (g : GpuState),
      1 ≤ Niter →
      ∃ times g', MPITestCPUSendRecv_times T 0 Niter now time_taken g = some (times, g') ∧
        times.length = Niter * T ∧
        ∀ k p, k < Niter → p < T → times[k * T + p]? = some (time_taken k p) := by
  intro T Niter now time_taken g _
  obtain ⟨g', hg'⟩ := MPITestCPUSendRecv_times_spec T 0 Niter now time_taken g
  have hblk : ∀ k, (if (0 : Nat) = 0 then (List.range T).map (time_taken k)
      else List.replicate T 0).length = T := fun k => gathered_length T 0 _
  refine ⟨_, g', hg', blocks_length _ T hblk Niter, ?_⟩
  intro k p hk hp
  rw [blocks_getElem? _ T hblk Niter k p hk hp]
  simp [hp]

theorem C23_samples_per_process_of_job_witness :
    1 ≤ 2 ∧ ∃ times g',
      MPITestCPUSendRecv_times 3 0 2 (fun _ => 0) (fun k p => ((k + p : Nat) : ℝ))
        ⟨1, 0, 0, []⟩ = some (times, g') ∧ times.length = 2 * 3 :=
  ⟨by decide,
    (C23_samples_per_process_of_job 3 2 (fun _ => 0) (fun k p => ((k + p : Nat) : ℝ))
      ⟨1, 0, 0, []⟩ (by decide)).imp
      (fun _ h => h.imp (fun _ h => ⟨h.1, h.2.1⟩))⟩

theorem TimeStats_isSome_of_ne_nil (times : List ℝ) (h : times ≠ []) :
    ∃ res, TimeStats Real.sqrt times = some res := by
  obtain ⟨t0, rest, rfl⟩ := List.exists_cons_of_ne_nil h
  exact ⟨_, TimeStats_cons Real.sqrt t0 rest⟩

/-- C30: for every process count `T ≥ 1`, rank and iteration count `Niter ≥ 1`, the list
that `MPITestCPUSendRecv` and `MPITestCPUAllReduce` pass to `TimeStats` at a level has
`Niter * T` entries, so it is not empty, `n` is not zero and `TimeStats` returns a result;
for `Niter = 0` the list is empty and `TimeStats` reads `times[0]` out of bounds. -/
theorem C30_samples_non_empty :
    ∀ (T r : Nat) (now : Nat → Int) (time_taken : Nat → Nat → ℝ) (g : GpuState), 1 ≤ T →
      (∀ Niter, 1 ≤ Niter →
        (∃ times g' res, MPITestCPUSendRecv_times T r Niter now time_taken g = some (times, g') ∧
          times.length = Niter * T ∧ times ≠ [] ∧ (times.length : ℝ) ≠ 0 ∧
          TimeStats Real.sqrt times = some res) ∧
        (∃ times g' res, MPITestCPUAllReduce_times T r Niter now time_taken g = some (times, g') ∧
          times.length = Niter * T ∧ times ≠ [] ∧ (times.length : ℝ) ≠ 0 ∧
          TimeStats Real.sqrt times = some res)) ∧
      (∃ g', MPITestCPUSendRecv_times T r 0 now time_taken g = some ([], g')) ∧
      (∃ g', MPITestCPUAllReduce_times T r 0 now time_taken g = some ([], g')) ∧
      TimeStats Real.sqrt ([] : List ℝ) = none := by
  intro T r now time_taken g hT
  have hblk : ∀ k, (if r = 0 then (List.range T).map (time_taken k)
      else List.replicate T 0).length = T := fun k => gathered_length T r _
  have hpos : ∀ Niter, 1 ≤ Niter → 0 < Niter * T := fun Niter h => Nat.mul_pos (by omega) (by omega)
  have key : ∀ (Niter : Nat) (times : List ℝ), 1 ≤ Niter → times.length = Niter * T →
      times ≠ [] ∧ (times.length : ℝ) ≠ 0 ∧ ∃ res, TimeStats Real.sqrt times = some res := by
    intro Niter times hN hlen
    have hne : times ≠ [] := by
      intro h
      rw [h] at hlen
      have := hpos Niter hN
      simp at hlen
      omega
    refine ⟨hne, ?_, TimeStats_isSome_of_ne_nil times hne⟩
    have := hpos Niter hN
    rw [hlen]
    exact_mod_cast (by omega : Niter * T ≠ 0)
  refine ⟨?_, ?_, ?_, rfl⟩
  · intro Niter hN
    obtain ⟨g₁, h₁⟩ := MPITestCPUSendRecv_times_spec T r Niter now time_taken g
    obtain ⟨g₂, h₂⟩ := MPITestCPUAllReduce_times_spec T r Niter now time_taken g
    have hlen := blocks_length _ T hblk Niter
    obtain ⟨hne, hn0, res, hres⟩ := key Niter _ hN hlen
    exact ⟨⟨_, g₁, res, h₁, hlen, hne, hn0, hres⟩, ⟨_, g₂, res, h₂, hlen, hne, hn0, hres⟩⟩
  · exact ⟨g, rfl⟩
  · exact ⟨g, rfl⟩

theorem C30_samples_non_empty_witness :
    (1 ≤ 2 ∧ 1 ≤ 3) ∧
      ∃ times g' res,
        MPITestCPUSendRecv_times 2 0 3 (fun _ => 0) (fun _ _ => (0 : ℝ)) ⟨1, 0, 0, []⟩
          = some (times, g') ∧
        times.length = 3 * 2 ∧ times ≠ [] ∧ (times.length : ℝ) ≠ 0 ∧
        TimeStats Real.sqrt times = some res :=
  ⟨by decide,
    ((C30_samples_non_empty 2 0 (fun _ => 0) (fun _ _ => (0 : ℝ)) ⟨1, 0, 0, []⟩
      (by decide)).1 3 (by decide)).1⟩

end ProfileUtil
